import Mathlib

/-!
# Verification of the CSPS extraction pipeline (`utils.py`)

A shallow embedding of the tabular reshape and normalisation pipeline of
`src/utils.py` (Civil Service People Survey extraction), together with
theorems settling the specification claims about it.

Conventions of the embedding:
* Python strings are `List Char` (wrapped as `String` at the boundaries);
  `str.strip()` is `pyStrip` over the ASCII whitespace characters that
  Python's `\s` / `str.strip` recognise (the data processed by the pipeline
  is ASCII).
* A pandas `DataFrame` is an ordered list of named columns, each a list of
  string cells (`DataFrame`).  In-place mutation of a frame by a Python
  function is modelled by explicit state passing: a function that mutates an
  argument returns its final state.
* Python exceptions are modelled by `Except PyErr`; where a claim speaks
  about the state of the inputs at the moment an exception is raised, the
  error value carries that state.
-/

/-- The whitespace characters recognised by Python's `str.strip()` / `\s`
(restricted to ASCII, which is all the pipeline's data contains). -/
def pySpace (c : Char) : Bool :=
  c = ' ' || c = '\t' || c = '\n' || c = '\r' || c = '\x0b' || c = '\x0c'

/-- Drop trailing characters satisfying `p` (Python `rstrip`). -/
def dropTrailing (p : Char → Bool) (l : List Char) : List Char :=
  (l.reverse.dropWhile p).reverse

/-- Python `str.strip()` on a character list. -/
def pyStrip (l : List Char) : List Char :=
  dropTrailing pySpace (l.dropWhile pySpace)

/-- Python `str.strip()` on a `String`. -/
def pyStripStr (s : String) : String :=
  String.mk (pyStrip s.data)

/-- Python `str.strip(chars)`: strip the characters of `chars` from both ends. -/
def pyStripChars (chars : List Char) (l : List Char) : List Char :=
  dropTrailing (fun c => chars.contains c) (l.dropWhile (fun c => chars.contains c))

/-- Python slicing `value[a:b]` (for `a ≤ b` within range; clamps like Python). -/
def pySlice (l : List Char) (a b : Nat) : List Char :=
  (l.take b).drop a

/-- ASCII lower-casing of one character, as Python's `str.lower` acts on the
ASCII range (the pipeline's data is ASCII). -/
def pyToLower (c : Char) : Char :=
  if 'A' ≤ c && c ≤ 'Z' then Char.ofNat (c.toNat + 32) else c

/-- Python `str.lower()` on a character list (ASCII range). -/
def pyLower (l : List Char) : List Char :=
  l.map pyToLower

/-- Case-insensitive equality of characters (ASCII), as `re.IGNORECASE`
compares literal characters. -/
def charCIEq (a b : Char) : Bool :=
  pyToLower a = pyToLower b

/-- Case-insensitive prefix test: does `pat` start `l` (ASCII case folded)? -/
def ciPrefix : List Char → List Char → Bool
  | [], _ => true
  | _ :: _, [] => false
  | p :: ps, c :: cs => charCIEq p c && ciPrefix ps cs

/-- Does `sub` occur as a (contiguous, case-sensitive) sublist of `l`?
(Python's `sub in s`.) -/
def listContainsSub (sub : List Char) (l : List Char) : Bool :=
  match l with
  | [] => sub.isEmpty
  | _ :: rest => sub.isPrefixOf l || listContainsSub sub rest

/-- Python `str.split()` with no argument: split on runs of whitespace,
discarding empty pieces. -/
def pyWords (l : List Char) : List (List Char) :=
  go l []
where
  /-- Accumulate the current word (reversed); emit it at whitespace/end. -/
  go : List Char → List Char → List (List Char)
    | [], [] => []
    | [], acc => [acc.reverse]
    | c :: cs, acc =>
      if pySpace c then
        match acc with
        | [] => go cs []
        | _ => acc.reverse :: go cs []
      else go cs (c :: acc)

/-- Join character lists with a separator (Python `sep.join(parts)`). -/
def pyJoin (sep : List Char) (parts : List (List Char)) : List Char :=
  List.intercalate sep parts

/-! ## The DataFrame model

A pandas `DataFrame` is modelled as an ordered list of named columns; every
cell is a string (the pipeline's frames hold text).  All pandas operations
used by `utils.py` are translated below. -/

/-- A data frame: ordered named columns of string cells. -/
structure DataFrame where
  cols : List (String × List String)
deriving Repr, DecidableEq

namespace DataFrame

/-- `df.columns`, in order. -/
def columns (df : DataFrame) : List String :=
  df.cols.map Prod.fst

/-- Number of rows (length of the first column; the well-formedness
invariant makes all columns this long). -/
def height (df : DataFrame) : Nat :=
  match df.cols with
  | [] => 0
  | c :: _ => c.2.length

/-- Every column holds the same number of cells. -/
def WF (df : DataFrame) : Prop :=
  ∀ p ∈ df.cols, p.2.length = df.height

/-- `df[name]` (first column with that label), if present. -/
def getCol? (df : DataFrame) (name : String) : Option (List String) :=
  (df.cols.find? (fun p => p.1 = name)).map Prod.snd

/-- `df[name]` with `[]` as fallback (used only under a presence hypothesis). -/
def getCol (df : DataFrame) (name : String) : List String :=
  (df.getCol? name).getD []

/-- `df.columns.get_loc(name)`: index of the first column with that label. -/
def colIdx (df : DataFrame) (name : String) : Nat :=
  df.cols.findIdx (fun p => p.1 = name)

/-- `df.drop(columns=[name])`: remove every column with that label. -/
def dropCol (df : DataFrame) (name : String) : DataFrame :=
  ⟨df.cols.filter (fun p => ¬ p.1 = name)⟩

/-- `df.insert(idx, name, values)`. -/
def insertCol (df : DataFrame) (idx : Nat) (name : String) (values : List String) : DataFrame :=
  ⟨df.cols.insertIdx idx (name, values)⟩

/-- Replace the cells of every column labelled `name` via `f`
(`df[name] = df[name].apply(f)` and friends). -/
def mapCol (df : DataFrame) (name : String) (f : String → String) : DataFrame :=
  ⟨df.cols.map (fun p => if p.1 = name then (p.1, p.2.map f) else p)⟩

/-- Row `i` of the frame, as the list of its cells in column order. -/
def row (df : DataFrame) (i : Nat) : List String :=
  df.cols.map (fun p => p.2.getD i "")

/-- All rows, in order (the row-wise reading of the columnar frame). -/
def rows (df : DataFrame) : List (List String) :=
  (List.range df.height).map df.row

end DataFrame

/-- Python exceptions raised by the pipeline. -/
inductive PyErr where
  /-- `ValueError` (the configuration errors of `utils.py`). -/
  | valueError (msg : String)
  /-- `AttributeError` (e.g. calling `.where` on a plain `str`). -/
  | attributeError (msg : String)
  /-- `KeyError` (indexing a missing column). -/
  | keyError (msg : String)
deriving Repr, DecidableEq

/-- Is this a `ValueError` (the "configuration error" of the spec)? -/
def PyErr.isValueError : PyErr → Bool
  | .valueError _ => true
  | _ => false

/-- Decidable equality for `Except` values (for evaluating concrete runs). -/
instance exceptDecEq {ε α : Type} [DecidableEq ε] [DecidableEq α] : DecidableEq (Except ε α) :=
  fun x y =>
    match x, y with
    | .ok a, .ok b =>
      if h : a = b then isTrue (by rw [h]) else isFalse (fun hc => h (Except.ok.inj hc))
    | .error a, .error b =>
      if h : a = b then isTrue (by rw [h]) else isFalse (fun hc => h (Except.error.inj hc))
    | .ok _, .error _ => isFalse (fun hc => Except.noConfusion hc)
    | .error _, .ok _ => isFalse (fun hc => Except.noConfusion hc)

/-! ## `strip_column_names` (utils.py lines 5-15)

`df.columns = df.columns.str.strip()` renames the columns of the frame in
place; the function returns that same frame. -/

/-- `strip_column_names`: strip whitespace from all column names. -/
def strip_column_names (df : DataFrame) : DataFrame :=
  ⟨df.cols.map (fun p => (pyStripStr p.1, p.2))⟩

/-! ## `remove_column_name_note_numbers` (utils.py lines 18-61)

The regex patterns built at lines 43-52, combined by `|` and applied with
`re.sub(..., "", col, flags=re.IGNORECASE)`.  Python's alternation tries the
patterns at each scan position in the order they were joined, consuming the
first (greedy) match and continuing after it. -/

/-- Length of the leading run of characters satisfying `p`. -/
def countLeading (p : Char → Bool) (l : List Char) : Nat :=
  (l.takeWhile p).length

/-- Does the list start with `']'`? -/
def headIsRBracket : List Char → Bool
  | ']' :: _ => true
  | _ => false

/-- Pattern `\[<escaped note>\]` (IGNORECASE), matched at the head of `l`;
returns the number of characters consumed. -/
def matchLit (n : List Char) : List Char → Option Nat
  | c :: rest =>
    if c = '[' then
      if ciPrefix n rest && headIsRBracket (rest.drop n.length) then
        some (n.length + 2)
      else none
    else none
  | [] => none

/-- Does whitespace length `k` for the `\s*` of `\[note\s*n\]` lead to a
match (literal `n`, then `]`)? -/
def noteKCheck (n rest1 : List Char) (k : Nat) : Bool :=
  ciPrefix n (rest1.drop k) && headIsRBracket ((rest1.drop k).drop n.length)

/-- Helper for `matchNote`: try the greedy whitespace length `k` for `\s*`,
backtracking downwards, against literal `n` followed by `]`. -/
def matchNoteAux (n rest1 : List Char) : Nat → Option Nat
  | 0 => if noteKCheck n rest1 0 then some (1 + 4 + 0 + n.length + 1) else none
  | k + 1 =>
    if noteKCheck n rest1 (k + 1) then some (1 + 4 + (k + 1) + n.length + 1)
    else matchNoteAux n rest1 k

/-- Pattern `\[note\s*<escaped note>\]` (IGNORECASE) at the head of `l`. -/
def matchNote (n : List Char) : List Char → Option Nat
  | c :: rest =>
    if c = '[' then
      if ciPrefix "note".data rest then
        matchNoteAux n (rest.drop 4) (countLeading pySpace (rest.drop 4))
      else none
    else none
  | [] => none

/-- The character class `[\d\s,and]` under IGNORECASE. -/
def isNoteClass (c : Char) : Bool :=
  c.isDigit || pySpace c || c = ',' || charCIEq c 'a' || charCIEq c 'n' || charCIEq c 'd'

/-- The character class `[\d\s,]`. -/
def isNumClass (c : Char) : Bool :=
  c.isDigit || pySpace c || c = ','

/-- Does the list start with a character satisfying `p`? -/
def headSat (p : Char → Bool) : List Char → Bool
  | c :: _ => p c
  | [] => false

/-- Pattern `\[notes?\s+[\d\s,and]+\]` (IGNORECASE) at the head of `l`.
After `note`, the optional `s` is taken greedily when present (if the
continuation then fails, the branch without `s` fails too, since `\s+`
cannot match at the letter `s`).  `\s+` followed by the class (which
contains `\s`) succeeds exactly when the run of class characters starts
with whitespace, has length at least two, and is followed by `]`. -/
def matchNotes : List Char → Option Nat
  | c :: rest =>
    if c = '[' then
      if ciPrefix "note".data rest then
        let r := rest.drop 4
        let sLen := if headSat (fun c => charCIEq c 's') r then 1 else 0
        let r2 := r.drop sLen
        let run := countLeading isNoteClass r2
        if headSat pySpace r2 && 2 ≤ run && headIsRBracket (r2.drop run) then
          some (1 + 4 + sLen + run + 1)
        else none
      else none
    else none
  | [] => none

/-- Pattern `\[[\d\s,]+\]` at the head of `l`. -/
def matchNumList : List Char → Option Nat
  | c :: rest =>
    if c = '[' then
      let run := countLeading isNumClass rest
      if 1 ≤ run && headIsRBracket (rest.drop run) then
        some (run + 2)
      else none
    else none
  | [] => none

/-- The combined alternation, in the order the source joins the patterns:
`\[n\]`, `\[note\s*n\]` for each registry value `n` in order, then
`\[notes?\s+[\d\s,and]+\]`, then `\[[\d\s,]+\]`. -/
def firstMatchAt (ids : List (List Char)) (l : List Char) : Option Nat :=
  match ids with
  | [] => (matchNotes l).orElse (fun _ => matchNumList l)
  | n :: rest =>
    ((matchLit n l).orElse (fun _ => matchNote n l)).orElse (fun _ => firstMatchAt rest l)

/-- `re.sub(combined_pattern, "", col, flags=re.IGNORECASE)`: left-to-right
scan, removing each leftmost match and continuing after it.  The fuel is the
length of the list; every step consumes at least one character. -/
def reSubGo (ids : List (List Char)) : Nat → List Char → List Char
  | _, [] => []
  | 0, l => l
  | fuel + 1, c :: cs =>
    match firstMatchAt ids (c :: cs) with
    | some k => reSubGo ids fuel (cs.drop (k - 1))
    | none => c :: reSubGo ids fuel cs

/-- Remove every (leftmost, non-overlapping) occurrence of the combined
footnote pattern from `l`. -/
def reSubAll (ids : List (List Char)) (l : List Char) : List Char :=
  reSubGo ids l.length l

/-- `remove_column_name_note_numbers`.  The presence check of the registry
column (lines 37-38) precedes everything else; the error value carries the
states of both frames at the moment of the raise (they are the inputs,
untouched).  On success the data frame's column names have the note patterns
removed and are then re-stripped (`strip_column_names`, line 60). -/
def remove_column_name_note_numbers (df_data df_notes : DataFrame)
    (note_number_column : String) :
    Except (PyErr × DataFrame × DataFrame) DataFrame :=
  if df_notes.columns.contains note_number_column then
    let note_numbers := (df_notes.getCol note_number_column).map String.data
    let renamed : DataFrame :=
      ⟨df_data.cols.map (fun p => (String.mk (reSubAll note_numbers p.1.data), p.2))⟩
    .ok (strip_column_names renamed)
  else
    .error (.valueError "note_number_column missing from df_notes", df_data, df_notes)

/-! ## `split_column_on_delimiter` (utils.py lines 64-106)

The delimiters are escaped and joined into one alternation; at every scan
position the alternatives are tried in list order, the first match wins, and
the leftmost matching position is used (`n=1`).  When *no* row of the column
contains any delimiter, `split_columns` has a single column, `new_col2` at
line 100 is the plain string `""`, and line 102 (`new_col2.where(...)`)
raises `AttributeError` — a plain `str` has no `.where`. -/

/-- Leftmost match of any delimiter: returns `(before, matched, after)` for
the first position at which some delimiter (in list order) is a prefix. -/
def findFirstMatch (delims : List String) : List Char → Option (List Char × String × List Char)
  | [] =>
    (delims.find? (fun d => d.data.isEmpty)).map (fun d => ([], d, []))
  | c :: cs =>
    match delims.find? (fun d => d.data.isPrefixOf (c :: cs)) with
    | some d => some ([], d, (c :: cs).drop d.data.length)
    | none => (findFirstMatch delims cs).map (fun r => (c :: r.1, r.2.1, r.2.2))

/-- The per-row output of `split_column_on_delimiter` in the (reachable)
success case: split on the first delimiter occurrence, trimming both sides;
a row with no delimiter yields an empty first output and the untouched
original value as second output. -/
def splitCellOnDelims (delims : List String) (s : String) : String × String :=
  match findFirstMatch delims s.data with
  | some (pre, _, suf) => (String.mk (pyStrip pre), String.mk (pyStrip suf))
  | none => ("", s)

/-- `split_column_on_delimiter`.  The presence check of the input column
(lines 91-92) precedes everything; the error value carries the frame at the
raise (the input, untouched — the `AttributeError` of line 102 also occurs
before any column is inserted or dropped). -/
def split_column_on_delimiter (df : DataFrame) (input_column output_column1 output_column2 : String)
    (delimiters : List String) : Except (PyErr × DataFrame) DataFrame :=
  if df.columns.contains input_column then
    let vals := df.getCol input_column
    if vals.any (fun v => (findFirstMatch delimiters v.data).isSome) then
      let pairs := vals.map (splitCellOnDelims delimiters)
      let col_idx := df.colIdx input_column
      let df1 := (df.insertCol col_idx output_column1 (pairs.map Prod.fst)).insertCol
        (col_idx + 1) output_column2 (pairs.map Prod.snd)
      .ok (df1.dropCol input_column)
    else
      .error (.attributeError "str object has no attribute where", df)
  else
    .error (.valueError "input_column missing from the DataFrame", df)

/-! ## `split_demographic_variable_name_column` (utils.py lines 109-146)

The per-cell regex is `re.match(r"^(.+?)\s*\((.*?)\)\s*$", value)`.  Its
backtracking semantics: group 1 (lazy, at least one non-newline character)
grows from the left; after it, `\s*` greedily consumes whitespace and must
land on `(`; group 2 (lazy, non-newline characters) stops at the first `)`
whose remaining suffix is all whitespace (`\s*$`; `$` before a string-final
newline adds nothing, as a newline is itself whitespace). -/

/-- The lazy group 2 of the demographic regex: scan for the first `)` whose
suffix is all whitespace; the content may not contain a newline. -/
def findG2 (acc : List Char) : List Char → Option (List Char)
  | [] => none
  | c :: r =>
    if c = ')' && r.all pySpace then some acc.reverse
    else if c = '\n' then none
    else findG2 (c :: acc) r

/-- Attempt `\s*\((.*?)\)\s*$` on the text after a candidate group 1. -/
def matchAfterG1 (rest : List Char) : Option (List Char) :=
  match rest.dropWhile pySpace with
  | c :: r3 => if c = '(' then findG2 [] r3 else none
  | [] => none

/-- Helper scanning candidate group-1 lengths from the shortest up. -/
def matchDemogGo (g1rev : List Char) : List Char → Option (List Char × List Char)
  | [] => none
  | c :: rest =>
    if c = '\n' then none
    else
      match matchAfterG1 rest with
      | some g2 => some ((c :: g1rev).reverse, g2)
      | none => matchDemogGo (c :: g1rev) rest

/-- `re.match(r"^(.+?)\s*\((.*?)\)\s*$", value)`: the captured
`(main, inside)` groups, if the regex matches. -/
def matchDemog (cs : List Char) : Option (List Char × List Char) :=
  matchDemogGo [] cs

/-- One pass of `re.sub` for a case-insensitive literal pattern: left-to-right
scan removing each (leftmost, non-overlapping) occurrence.  Fuel is the list
length; every step consumes at least one character (the pattern used,
`derived from`, is non-empty). -/
def ciRemoveGo (pat : List Char) : Nat → List Char → List Char
  | _, [] => []
  | 0, l => l
  | fuel + 1, c :: cs =>
    if ciPrefix pat (c :: cs) then ciRemoveGo pat fuel (cs.drop (pat.length - 1))
    else c :: ciRemoveGo pat fuel cs

/-- `re.sub(r"(?i)derived from", "", s)`-style removal of all occurrences of
a literal pattern, case-insensitively. -/
def ciRemoveAll (pat l : List Char) : List Char :=
  ciRemoveGo pat l.length l

/-- The per-cell `split_row` of `split_demographic_variable_name_column`:
returns (demographic variable name, derived from). -/
def splitDemogRow (value : String) : String × String :=
  match matchDemog value.data with
  | none => (pyStripStr value, "")
  | some (g1, g2) =>
    let inside := pyStrip g2
    if listContainsSub "derived from".data (pyLower inside) then
      let derived := pyStripChars " :,-".data (ciRemoveAll "derived from".data inside)
      (String.mk (pyStrip g1), String.mk derived)
    else (pyStripStr value, "")

/-- `split_demographic_variable_name_column`: the presence check of
lines 139-140 precedes the transformation; on success the input column is
dropped and the two result columns are inserted at its former position. -/
def split_demographic_variable_name_column (df : DataFrame) (input_column : String) :
    Except PyErr DataFrame :=
  if df.columns.contains input_column then
    let pairs := (df.getCol input_column).map splitDemogRow
    let col_idx := df.colIdx input_column
    let df1 := df.dropCol input_column
    .ok ((df1.insertCol col_idx "Demographic variable name" (pairs.map Prod.fst)).insertCol
      (col_idx + 1) "Derived from" (pairs.map Prod.snd))
  else
    .error (.valueError "input_column missing from the DataFrame")

/-! ## `split_measure_name_column` (utils.py lines 149-206)

Phase 1 (lines 167-184): a left-to-right scan over the enumerated characters
with an integer nesting depth, an optional span start, and the list of
collected top-level spans `(start, stop, stripped content)`; a span is
skipped when its content matches `^(e\.?g\.?|for\s+example)($|[\s:,])`
case-insensitively.  Phase 2 (lines 186-195): the collected spans are cut
out of the string left to right with an offset adjusted for prior removals,
and their contents joined with `"; "`. -/

/-- Does the list start with the end of string, whitespace, `:` or `,`
(the `($|[\s:,])` tail of the marker regex)? -/
def sepOrEnd : List Char → Bool
  | [] => true
  | c :: _ => pySpace c || c = ':' || c = ','

/-- The `for\s+example` alternative of the marker regex: `for`, at least one
whitespace character, `example`, then separator or end. -/
def forExampleMatch (l : List Char) : Bool :=
  if ciPrefix "for".data l then
    let r := l.drop 3
    let ws := countLeading pySpace r
    1 ≤ ws && ciPrefix "example".data (r.drop ws) && sepOrEnd ((r.drop ws).drop 7)
  else false

/-- `re.match(r"^(e\.?g\.?|for\s+example)($|[\s:,])", content, re.IGNORECASE)`:
the `e\.?g\.?` alternative expands to the four literals `e.g.`, `e.g`,
`eg.`, `eg`, each followed by separator-or-end. -/
def markerMatch (l : List Char) : Bool :=
  (ciPrefix "e.g.".data l && sepOrEnd (l.drop 4)) ||
  (ciPrefix "e.g".data l && sepOrEnd (l.drop 3)) ||
  (ciPrefix "eg.".data l && sepOrEnd (l.drop 3)) ||
  (ciPrefix "eg".data l && sepOrEnd (l.drop 2)) ||
  forExampleMatch l

/-- A collected top-level parenthetical: start offset, one-past-end offset,
and stripped content. -/
abbrev Span : Type := Nat × Nat × List Char

/-- One step of the phase-1 scan (lines 171-184), at enumerated character
`(i, c)`; the state is (depth, start position, collected spans). -/
def measureScanStep (value : List Char) (st : Int × Option Nat × List Span) (ic : Nat × Char) :
    Int × Option Nat × List Span :=
  let (depth, startPos, spans) := st
  let (i, c) := ic
  if c = '(' then
    (depth + 1, if depth = 0 then some i else startPos, spans)
  else if c = ')' then
    let d := depth - 1
    match startPos with
    | some s =>
      if d = 0 then
        let content := pyStrip (pySlice value (s + 1) i)
        (d, none, if markerMatch content then spans else spans ++ [(s, i + 1, content)])
      else (d, startPos, spans)
    | none => (d, none, spans)
  else st

/-- Phase 1: all collected top-level parenthetical spans of `value`. -/
def spansOf (value : List Char) : List Span :=
  (value.enum.foldl (measureScanStep value) ((0 : Int), (none : Option Nat), ([] : List Span))).2.2

/-- One step of the phase-2 removal (lines 190-195): state is
(cleaned, offset, definitions). -/
def removeStep (st : List Char × Nat × List (List Char)) (sp : Span) :
    List Char × Nat × List (List Char) :=
  let (cleaned, offset, defs) := st
  let (s, e, content) := sp
  (cleaned.take (s - offset) ++ cleaned.drop (e - offset), offset + (e - s), defs ++ [content])

/-- The per-cell `split_row` of `split_measure_name_column`: returns
(measure name, definition). -/
def split_measure_row (value : List Char) : List Char × List Char :=
  let res := (spansOf value).foldl removeStep (value, 0, [])
  (pyStrip res.1, pyJoin "; ".data res.2.2)

/-- `split_row` at the `String` level. -/
def split_measure_row_str (s : String) : String × String :=
  let p := split_measure_row s.data
  (String.mk p.1, String.mk p.2)

/-- `split_measure_name_column`: no presence check in the source — indexing
a missing column raises `KeyError`; on success the input column is dropped
and (measure name, definition) columns are inserted at its position. -/
def split_measure_name_column (df : DataFrame) (input_column : String) :
    Except PyErr DataFrame :=
  match df.getCol? input_column with
  | none => .error (.keyError input_column)
  | some vals =>
    let pairs := vals.map split_measure_row_str
    let col_idx := df.colIdx input_column
    let df1 := df.dropCol input_column
    .ok ((df1.insertCol col_idx "Measure name" (pairs.map Prod.fst)).insertCol
      (col_idx + 1) "Definition" (pairs.map Prod.snd))

/-! ## `unpivot_dataframe` (utils.py lines 209-236)

`pd.melt(df, id_vars, value_vars, var_name="Measure", value_name="Value")`
stacks one block per value variable: each identifier column is the original
column repeated once per measure, the variable column holds each measure
name repeated `len(df)` times, and the value column is the concatenation of
the measure columns. -/

/-- The fixed ordered identifier-column candidates of lines 221-227. -/
def keepCandidates : List String :=
  ["Demographic variable code", "Demographic variable name", "Derived from",
   "Response", "Notes"]

/-- `pd.melt` as used at lines 229-235. -/
def melt (df : DataFrame) (id_vars value_vars : List String)
    (var_name value_name : String) : DataFrame :=
  ⟨id_vars.map (fun c => (c, value_vars.flatMap (fun _ => df.getCol c)))
    ++ [(var_name, value_vars.flatMap (fun v => List.replicate df.height v)),
        (value_name, value_vars.flatMap (fun v => df.getCol v))]⟩

/-- `unpivot_dataframe`. -/
def unpivot_dataframe (df : DataFrame) : DataFrame :=
  let keep_columns := keepCandidates.filter (fun c => df.columns.contains c)
  let unpivot_columns := df.columns.filter (fun c => ¬ keep_columns.contains c)
  melt df keep_columns unpivot_columns "Measure" "Value"

/-! ## `lowercase_response_except_first_word` (utils.py lines 239-257) -/

/-- The per-cell `transform_response`: first whitespace-delimited word
unchanged, remaining words lower-cased, re-joined with single spaces; a
value with no words is returned unchanged. -/
def transform_response (val : String) : String :=
  match pyWords val.data with
  | [] => val
  | w :: rest =>
    match rest with
    | [] => String.mk w
    | _ => String.mk (w ++ ' ' :: pyJoin [' '] (rest.map pyLower))

/-- `lowercase_response_except_first_word`: the boolean mask over the
demographic-variable-name column selects the rows whose `Response` cell is
transformed.  Indexing either missing column raises `KeyError`. -/
def lowercase_response_except_first_word (df : DataFrame)
    (demographic_variable_name : String) : Except PyErr DataFrame :=
  if ¬ df.columns.contains "Demographic variable name" then
    .error (.keyError "Demographic variable name")
  else if ¬ df.columns.contains "Response" then
    .error (.keyError "Response")
  else
    let dvals := df.getCol "Demographic variable name"
    .ok ⟨df.cols.map (fun p =>
      if p.1 = "Response" then
        (p.1, List.zipWith (fun dv rv =>
          if dv = demographic_variable_name then transform_response rv else rv) dvals p.2)
      else p)⟩

/-! ## `clean_data` (utils.py lines 283-310) -/

/-- `Series.replace(mapping)` per cell: exact, case-sensitive match, with
non-matching values passing through. -/
def applyReplacements (reps : List (String × String)) (s : String) : String :=
  match reps.find? (fun p => p.1 = s) with
  | some p => p.2
  | none => s

/-- Strip a `"(England)"` suffix and the contiguous whitespace run before it
from a reversed character list. -/
def stripEnglandRev (r : List Char) : Option (List Char) :=
  if "(England)".data.reverse.isPrefixOf r then
    some ((r.drop 9).dropWhile pySpace)
  else none

/-- `re.sub(r"\s*\(England\)$", "", s)`: remove whitespace-then-`(England)`
at the end of the string; `$` also matches just before a single string-final
newline, which is then preserved. -/
def removeEngland (l : List Char) : List Char :=
  match stripEnglandRev l.reverse with
  | some r => r.reverse
  | none =>
    match l.reverse with
    | '\n' :: r1 =>
      match stripEnglandRev r1 with
      | some r => ('\n' :: r).reverse
      | none => l
    | _ => l

/-- `clean_data`.  `if grade_replacements:` skips step 1 for `None` and for
an empty mapping; step 2 always reads `df["Response"]`, so a frame without a
`Response` column raises `KeyError` in every path (checked once up front
here, observationally the same). -/
def clean_data (df : DataFrame) (grade_replacements : List (String × String))
    (lowercase_demographic : Option String) : Except PyErr DataFrame :=
  if ¬ df.columns.contains "Response" then
    .error (.keyError "Response")
  else
    let df1 :=
      if grade_replacements.isEmpty then df
      else df.mapCol "Response" (applyReplacements grade_replacements)
    let df2 := df1.mapCol "Response" (fun s => String.mk (removeEngland s.data))
    match lowercase_demographic with
    | some t => lowercase_response_except_first_word df2 t
    | none => .ok df2

/-! ## `reshape_data` (utils.py lines 260-280)

`strip_column_names(df_notes)` at line 273 renames the columns of the notes
frame *in place*; the returned pair carries the final state of the notes
frame alongside the reshaped data frame. -/

/-- `reshape_data`: the transformation pipeline; returns (reshaped data,
final state of the notes frame). -/
def reshape_data (df_data df_notes : DataFrame) (delimiters : List String) :
    Except PyErr (DataFrame × DataFrame) :=
  let df_data1 := strip_column_names df_data
  let df_notes1 := strip_column_names df_notes
  match remove_column_name_note_numbers df_data1 df_notes1 "Note number" with
  | .error e => .error e.1
  | .ok df_data2 =>
    match split_column_on_delimiter df_data2 "Demographic variable"
        "Demographic variable code" "Demographic variable name" delimiters with
    | .error e => .error e.1
    | .ok df_data3 =>
      match split_demographic_variable_name_column df_data3 "Demographic variable name" with
      | .error e => .error e
      | .ok df_data4 =>
        let df_data5 := unpivot_dataframe df_data4
        match split_column_on_delimiter df_data5 "Measure" "Measure code" "Measure name"
            delimiters with
        | .error e => .error e.1
        | .ok df_data6 =>
          match split_measure_name_column df_data6 "Measure name" with
          | .error e => .error e
          | .ok df_data7 => .ok (df_data7, df_notes1)

/-! ## Helper lemmas -/

/-- A successful `findFirstMatch` is a decomposition of the input, with the
matched delimiter drawn from the list. -/
theorem findFirstMatch_decomp (delims : List String) :
    ∀ (cs pre suf : List Char) (d : String),
      findFirstMatch delims cs = some (pre, d, suf) →
      cs = pre ++ d.data ++ suf ∧ d ∈ delims := by
  intro cs
  induction cs with
  | nil =>
    intro pre suf d h
    rw [findFirstMatch, Option.map_eq_some'] at h
    obtain ⟨d0, hfind, heq⟩ := h
    have hmem := List.mem_of_find?_eq_some hfind
    have hp := List.find?_some hfind
    simp only [List.isEmpty_iff] at hp
    simp only [Prod.mk.injEq] at heq
    obtain ⟨rfl, rfl, rfl⟩ := heq
    simp [hp, hmem]
  | cons c cs ih =>
    intro pre suf d h
    rw [findFirstMatch] at h
    cases hfind : List.find? (fun d => d.data.isPrefixOf (c :: cs)) delims with
    | some d0 =>
      rw [hfind] at h
      have hmem := List.mem_of_find?_eq_some hfind
      have hp := List.find?_some hfind
      rw [List.isPrefixOf_iff_prefix] at hp
      obtain ⟨t, ht⟩ := hp
      injection h with h'
      simp only [Prod.mk.injEq] at h'
      obtain ⟨rfl, rfl, rfl⟩ := h'
      constructor
      · conv_lhs => rw [← ht]
        rw [← ht, List.drop_left]
        simp
      · exact hmem
    | none =>
      rw [hfind, Option.map_eq_some'] at h
      obtain ⟨⟨pre', d', suf'⟩, hrec, heq⟩ := h
      simp only [Prod.mk.injEq] at heq
      obtain ⟨rfl, rfl, rfl⟩ := heq
      obtain ⟨hdec, hmem⟩ := ih pre' suf' d' hrec
      exact ⟨by simp [hdec], hmem⟩

/-! ## Claim C7: configuration errors -/

/-- C7: `remove_column_name_note_numbers` fails with a configuration error
(`ValueError`) exactly when the registry column is absent from the footnote
table, and `split_column_on_delimiter` fails with a configuration error
exactly when its input column is absent from the data table; in either error
case the raise is immediate and the error carries the input frames unchanged
(the checks are the first statements of both functions). -/
theorem config_error_iff_column_missing :
    (∀ (df_data df_notes : DataFrame) (c : String),
      (∃ msg, remove_column_name_note_numbers df_data df_notes c
          = .error (.valueError msg, df_data, df_notes))
        ↔ c ∉ df_notes.columns) ∧
    (∀ (df : DataFrame) (i o1 o2 : String) (ds : List String),
      (∃ msg, split_column_on_delimiter df i o1 o2 ds = .error (.valueError msg, df))
        ↔ i ∉ df.columns) := by
  constructor
  · intro df_data df_notes c
    by_cases h : c ∈ df_notes.columns
    · simp [remove_column_name_note_numbers, h]
    · simp [remove_column_name_note_numbers, h]
  · intro df i o1 o2 ds
    by_cases h : i ∈ df.columns
    · by_cases h2 : (df.getCol i).any (fun v => (findFirstMatch ds v.data).isSome) = true
      · simp [split_column_on_delimiter, h, h2]
      · simp [split_column_on_delimiter, h, h2]
    · simp [split_column_on_delimiter, h]

/-- Witness for C7: at concrete inputs, a frame without the registry
column produces the configuration error carrying the inputs unchanged. -/
theorem config_error_iff_column_missing_witness :
    ∃ msg, remove_column_name_note_numbers ⟨[("X", ["a"])]⟩ ⟨[]⟩ "Note number"
      = .error (.valueError msg, ⟨[("X", ["a"])]⟩, ⟨[]⟩) :=
  (config_error_iff_column_missing.1 ⟨[("X", ["a"])]⟩ ⟨[]⟩ "Note number").mpr (by decide)

/-! ## Claim C3: per-row delimiter split (code bug at the no-match column) -/

/-- C3 (failing input): on a table whose column contains no delimiter in any
row, `split_column_on_delimiter` raises `AttributeError` instead of
producing (empty, original) rows — at line 100 `new_col2` is the plain
string `""` and line 102 calls `.where` on it.  The claim (and the
function's own docstring) promise left output `""` and right output the
original cell value. -/
theorem split_column_no_delimiter_raises :
    split_column_on_delimiter ⟨[("Col", ["NoDelimiterHere"])]⟩ "Col" "Left" "Right" ["."]
      = .error (.attributeError "str object has no attribute where",
          ⟨[("Col", ["NoDelimiterHere"])]⟩) := by
  decide

/-! ## Claim C4: round trip of the delimiter split -/

/-- C4 (counterexample): both outputs are trimmed, so re-concatenating with
the matched delimiter loses the whitespace around the split point: for the
cell `"A , B"` with delimiter `","` the outputs are `"A"` and `"B"`, and
`"A" ++ "," ++ "B" = "A,B"` is not the original cell. -/
theorem split_roundtrip_cex :
    splitCellOnDelims [","] "A , B" = ("A", "B") ∧
    findFirstMatch [","] "A , B".data = some ("A ".data, ",", " B".data) ∧
    ("A" ++ "," ++ "B" ≠ "A , B") := by
  decide

/-- C4 (amended): when the cell contains a delimiter, concatenating the two
outputs of the split around the matched delimiter reconstructs the original
cell with the whitespace around the split point trimmed; in particular it
reconstructs the cell exactly whenever the text before and after the first
delimiter occurrence carries no leading/trailing whitespace. -/
theorem split_roundtrip_amended (delims : List String) (s : String)
    (pre suf : List Char) (d : String)
    (h : findFirstMatch delims s.data = some (pre, d, suf))
    (h1 : pyStrip pre = pre) (h2 : pyStrip suf = suf) :
    (splitCellOnDelims delims s).1 ++ d ++ (splitCellOnDelims delims s).2 = s := by
  obtain ⟨hdec, _⟩ := findFirstMatch_decomp delims s.data pre suf d h
  simp only [splitCellOnDelims, h]
  rw [h1, h2]
  apply String.ext
  simp [String.data_append, hdec]

/-- Witness for C4 (amended): the spec's own example reconstructs exactly. -/
theorem split_roundtrip_amended_witness :
    (splitCellOnDelims ["."] "A1.Label text").1 ++ "." ++ (splitCellOnDelims ["."] "A1.Label text").2
      = "A1.Label text" :=
  split_roundtrip_amended ["."] "A1.Label text" "A1".data "Label text".data "."
    (by decide) (by decide) (by decide)

/-! ## Claim C10: a stray closing parenthesis disables extraction

In the Python scan the depth counter is a signed integer: a `)` before any
`(` drives it to `-1`, after which a `(` no longer finds depth `0` and so
never opens a span (unless nesting pushes the depth back up); the function
is total and never raises on such input. -/

/-- Not-nested condition on the text after the stray `)`: scanning with a
local depth counter starting at `0`, no `(` is met at local depth `1`
(i.e. the remaining parentheses are not nested). -/
def notNestedFrom : Int → List Char → Bool
  | _, [] => true
  | d, c :: cs =>
    if c = '(' then decide (d + 1 ≤ 1) && notNestedFrom (d + 1) cs
    else if c = ')' then notNestedFrom (d - 1) cs
    else notNestedFrom d cs

/-- Scan-safety: along the rest of the scan, no `(` occurs at depth `0`
(so no span can ever be opened). -/
def okGo : Int → List Char → Bool
  | _, [] => true
  | d, c :: cs =>
    if c = '(' then decide (d ≠ 0) && okGo (d + 1) cs
    else if c = ')' then okGo (d - 1) cs
    else okGo d cs

/-- Under `okGo`, the phase-1 fold never opens a span: the start stays
`none` and the span list is unchanged. -/
theorem foldl_scan_no_span (value : List Char) :
    ∀ (l : List (Nat × Char)) (d : Int) (sp : List Span),
      okGo d (l.map Prod.snd) = true →
      ∃ d', l.foldl (measureScanStep value) (d, none, sp) = (d', none, sp) := by
  intro l
  induction l with
  | nil => intro d sp _; exact ⟨d, rfl⟩
  | cons ic rest ih =>
    intro d sp hok
    obtain ⟨i, c⟩ := ic
    by_cases hc : c = '('
    · subst hc
      simp only [List.map_cons] at hok
      simp [okGo] at hok
      obtain ⟨hd, hok'⟩ := hok
      have hstep : measureScanStep value (d, none, sp) (i, '(') = (d + 1, none, sp) := by
        simp [measureScanStep, hd]
      simpa [hstep] using ih (d + 1) sp hok'
    · by_cases hc2 : c = ')'
      · subst hc2
        simp only [List.map_cons] at hok
        simp [okGo] at hok
        have hstep : measureScanStep value (d, none, sp) (i, ')') = (d - 1, none, sp) := by
          simp [measureScanStep]
        simpa [hstep] using ih (d - 1) sp hok
      · simp only [List.map_cons] at hok
        simp [okGo, hc, hc2] at hok
        have hstep : measureScanStep value (d, none, sp) (i, c) = (d, none, sp) := by
          simp [measureScanStep, hc, hc2]
        simpa [hstep] using ih d sp hok

/-- Under `okGo 0`, phase 1 collects no spans at all. -/
theorem spansOf_eq_nil_of_okGo (value : List Char) (h : okGo 0 value = true) :
    spansOf value = [] := by
  rw [spansOf]
  obtain ⟨d', hd⟩ := foldl_scan_no_span value value.enum 0 []
    (by rwa [List.enum_map_snd])
  rw [hd]

/-- A parenthesis-free prefix then a stray `)` leaves the scan at depth -1. -/
theorem okGo_append_front :
    ∀ (a : List Char) (b : List Char), (∀ c ∈ a, c ≠ '(' ∧ c ≠ ')') →
      okGo 0 (a ++ ')' :: b) = okGo (-1) b := by
  intro a
  induction a with
  | nil =>
    intro b _
    simp [okGo]
  | cons c a ih =>
    intro b ha
    obtain ⟨h1, h2⟩ := ha c (by simp)
    rw [List.cons_append]
    simp only [okGo, if_neg h1, if_neg h2]
    exact ih b (fun x hx => ha x (by simp [hx]))

/-- The not-nested condition implies scan safety one level down. -/
theorem okGo_of_notNested :
    ∀ (b : List Char) (ld : Int), notNestedFrom ld b = true → okGo (ld - 1) b = true := by
  intro b
  induction b with
  | nil => intro ld _; rfl
  | cons c cs ih =>
    intro ld h
    by_cases hc : c = '('
    · subst hc
      simp [notNestedFrom] at h
      obtain ⟨hle, h'⟩ := h
      simp only [okGo]
      simp only [if_pos rfl, Bool.and_eq_true, decide_eq_true_eq, if_true]
      refine ⟨by omega, ?_⟩
      have := ih (ld + 1) h'
      simpa using this
    · by_cases hc2 : c = ')'
      · subst hc2
        simp [notNestedFrom] at h
        simp only [okGo, if_neg (by decide : ¬ (')' = '(')), if_pos rfl, if_true]
        exact ih (ld - 1) h
      · simp [notNestedFrom, hc, hc2] at h
        simp only [okGo, if_neg hc, if_neg hc2]
        exact ih ld h

/-- C10: when an unmatched `)` precedes every `(` in a measure-label cell
and the remaining parentheses are not nested, `split_measure_name_column`'s
per-cell split extracts nothing: the definition output is empty and the
measure name is the trimmed original text with all parentheticals left
embedded.  (The function is total — the Python scan just drives its signed
depth counter negative and never raises.) -/
theorem stray_close_paren_extracts_nothing (s : String) (a b : List Char)
    (hsplit : s.data = a ++ ')' :: b)
    (ha : ∀ c ∈ a, c ≠ '(' ∧ c ≠ ')')
    (hb : notNestedFrom 0 b = true) :
    split_measure_row_str s = (pyStripStr s, "") := by
  have hok : okGo 0 s.data = true := by
    rw [hsplit, okGo_append_front a b ha]
    have := okGo_of_notNested b 0 hb
    simpa using this
  have hsp := spansOf_eq_nil_of_okGo s.data hok
  rw [split_measure_row_str, split_measure_row, hsp]
  rfl

/-- Witness for C10 at the concrete cell `") x (a) (b)"`. -/
theorem stray_close_paren_extracts_nothing_witness :
    split_measure_row_str ") x (a) (b)" = (") x (a) (b)", "") :=
  stray_close_paren_extracts_nothing ") x (a) (b)" [] " x (a) (b)".data
    (by decide) (by simp) (by decide)

/-! ## Claim C5: the variable annotation parser -/

/-- The three-branch behaviour C5 describes: no match keeps the trimmed
text with empty provenance; a match whose parenthetical content mentions
`derived from` (case-insensitively) yields the trimmed main text and the
content with the phrase removed and surrounding ` :,-` stripped; a match
without the phrase keeps the trimmed full text and empty provenance. -/
def demogSpecSplit (value : String) : String × String :=
  match matchDemog value.data with
  | none => (pyStripStr value, "")
  | some (mainText, parenthetical) =>
    if listContainsSub "derived from".data (pyLower (pyStrip parenthetical)) then
      (String.mk (pyStrip mainText),
       String.mk (pyStripChars " :,-".data
         (ciRemoveAll "derived from".data (pyStrip parenthetical))))
    else (pyStripStr value, "")

/-- A successful `findG2` splits its input at a `)` followed only by
whitespace, returning the accumulated content. -/
theorem findG2_decomp :
    ∀ (r acc g2 : List Char), findG2 acc r = some g2 →
      ∃ mid w2, r = mid ++ ')' :: w2 ∧ g2 = acc.reverse ++ mid ∧
        (∀ c ∈ w2, pySpace c = true) := by
  intro r
  induction r with
  | nil => intro acc g2 h; simp [findG2] at h
  | cons c rest ih =>
    intro acc g2 h
    rw [findG2] at h
    by_cases hc : (c = ')' && rest.all pySpace) = true
    · rw [if_pos hc] at h
      injection h with h'
      rw [Bool.and_eq_true, decide_eq_true_eq] at hc
      obtain ⟨rfl, hall⟩ := hc
      refine ⟨[], rest, by simp, by simp [h'.symm], ?_⟩
      intro x hx
      exact List.all_eq_true.mp hall x hx
    · rw [if_neg hc] at h
      by_cases hn : c = '\n'
      · rw [if_pos hn] at h; exact absurd h (by simp)
      · rw [if_neg hn] at h
        obtain ⟨mid', w2, hr, hg, hw⟩ := ih (c :: acc) g2 h
        exact ⟨c :: mid', w2, by simp [hr], by simpa using hg, hw⟩

/-- A successful `matchAfterG1` decomposes its input as whitespace, `(`,
the captured group, `)`, and trailing whitespace. -/
theorem matchAfterG1_decomp (rest g2 : List Char) (h : matchAfterG1 rest = some g2) :
    ∃ w1 w2, (∀ c ∈ w1, pySpace c = true) ∧ (∀ c ∈ w2, pySpace c = true) ∧
      rest = w1 ++ '(' :: (g2 ++ ')' :: w2) := by
  rw [matchAfterG1] at h
  cases hdw : rest.dropWhile pySpace with
  | nil => rw [hdw] at h; exact absurd h (by simp)
  | cons c r3 =>
    rw [hdw] at h
    simp only at h
    by_cases hc : c = '('
    · subst hc
      rw [if_pos rfl] at h
      obtain ⟨mid, w2, hr3, hg, hw⟩ := findG2_decomp r3 [] g2 h
      refine ⟨rest.takeWhile pySpace, w2, ?_, hw, ?_⟩
      · intro x hx
        exact List.mem_takeWhile_imp hx
      · conv_lhs => rw [← List.takeWhile_append_dropWhile (p := pySpace) (l := rest)]
        rw [hdw, hr3]
        simp [hg]
    · rw [if_neg hc] at h
      exact absurd h (by simp)

/-- A successful `matchDemogGo` decomposes the whole scanned text as
`group1 ++ whitespace ++ ( group2 ) ++ whitespace`, with group 1 non-empty. -/
theorem matchDemogGo_decomp :
    ∀ (l g1rev g1 g2 : List Char), matchDemogGo g1rev l = some (g1, g2) →
      ∃ w1 w2, (∀ c ∈ w1, pySpace c = true) ∧ (∀ c ∈ w2, pySpace c = true) ∧
        g1rev.reverse ++ l = g1 ++ w1 ++ '(' :: (g2 ++ ')' :: w2) ∧ g1 ≠ [] := by
  intro l
  induction l with
  | nil => intro g1rev g1 g2 h; simp [matchDemogGo] at h
  | cons c rest ih =>
    intro g1rev g1 g2 h
    rw [matchDemogGo] at h
    by_cases hn : c = '\n'
    · rw [if_pos hn] at h; exact absurd h (by simp)
    · rw [if_neg hn] at h
      cases hm : matchAfterG1 rest with
      | some g2' =>
        rw [hm] at h
        injection h with h'
        rw [Prod.mk.injEq] at h'
        obtain ⟨hg1, hg2⟩ := h'
        subst hg2
        obtain ⟨w1, w2, hw1, hw2, hrest⟩ := matchAfterG1_decomp rest _ hm
        refine ⟨w1, w2, hw1, hw2, ?_, ?_⟩
        · rw [← hg1, hrest]
          simp
        · rw [← hg1]
          simp
      | none =>
        rw [hm] at h
        obtain ⟨w1, w2, hw1, hw2, heq, hne⟩ := ih (c :: g1rev) g1 g2 h
        refine ⟨w1, w2, hw1, hw2, ?_, hne⟩
        rw [← heq]
        simp

/-- C5: the per-cell split of `split_demographic_variable_name_column`
behaves as the claim describes: (i) it equals the three-branch description
`demogSpecSplit` on every cell; (ii) whenever the anchored regex matches, the
whole text decomposes as `main ++ ws ++ ( parenthetical ) ++ ws` with a
non-empty main text; and (iii) the spec's two examples hold. -/
theorem variable_annotation_matches_spec :
    (∀ s : String, splitDemogRow s = demogSpecSplit s) ∧
    (∀ (cs g1 g2 : List Char), matchDemog cs = some (g1, g2) →
      ∃ w1 w2, (∀ c ∈ w1, pySpace c = true) ∧ (∀ c ∈ w2, pySpace c = true) ∧
        cs = g1 ++ w1 ++ '(' :: (g2 ++ ')' :: w2) ∧ g1 ≠ []) ∧
    splitDemogRow "Age (derived from: DOB)" = ("Age", "DOB") ∧
    splitDemogRow "Age (years)" = ("Age (years)", "") := by
  refine ⟨?_, ?_, by decide, by decide⟩
  · intro s
    cases h : matchDemog s.data with
    | none => simp [splitDemogRow, demogSpecSplit, h]
    | some p => obtain ⟨g1, g2⟩ := p; simp [splitDemogRow, demogSpecSplit, h]
  · intro cs g1 g2 h
    have := matchDemogGo_decomp cs [] g1 g2 h
    simpa using this

/-- Witness for C5 at the concrete cell `"Age (years)"`. -/
theorem variable_annotation_matches_spec_witness :
    ∃ w1 w2, (∀ c ∈ w1, pySpace c = true) ∧ (∀ c ∈ w2, pySpace c = true) ∧
      "Age (years)".data = "Age".data ++ w1 ++ '(' :: ("years".data ++ ')' :: w2) ∧
      "Age".data ≠ [] :=
  variable_annotation_matches_spec.2.1 "Age (years)".data "Age".data "years".data (by decide)

/-! ## Claim C9: the footnote registry frame is mutated in place

`reshape_data` calls `strip_column_names(df_notes)` (line 273), which
assigns `df.columns = df.columns.str.strip()` on the caller's notes frame —
an in-place rename.  The claim that the notes table is exactly as passed in
fails whenever a notes column name carries surrounding whitespace. -/

/-- The final state of the notes frame after a successful `reshape_data`. -/
def reshapeNotesState (r : Except PyErr (DataFrame × DataFrame)) : Option DataFrame :=
  match r with
  | .ok p => some p.2
  | .error _ => none

/-- C9 (counterexample): a notes frame whose registry column is named
`" Note number "` comes back from a successful `reshape_data` run with the
name stripped to `"Note number"` — not the frame that was passed in. -/
theorem reshape_mutates_notes_cex :
    reshapeNotesState (reshape_data
        ⟨[("Demographic variable", ["D1: Gender"]), ("Response", ["Male"]),
          ("M1: Score [1]", ["5"])]⟩
        ⟨[(" Note number ", ["1"])]⟩ [":"])
      = some ⟨[("Note number", ["1"])]⟩ ∧
    (⟨[("Note number", ["1"])]⟩ : DataFrame) ≠ ⟨[(" Note number ", ["1"])]⟩ := by
  constructor
  · rfl
  · decide

/-- C9 (amended): the notes frame's cell data is never mutated by the core;
its column names are stripped of surrounding whitespace in place (the only
mutation), so after a successful `reshape_data` the notes frame is
`strip_column_names` of what was passed in — and exactly what was passed in
whenever its column names carried no surrounding whitespace. -/
theorem reshape_notes_only_stripped (df_data df_notes : DataFrame) (ds : List String)
    (res notes' : DataFrame) (h : reshape_data df_data df_notes ds = .ok (res, notes')) :
    notes' = strip_column_names df_notes ∧
    (strip_column_names df_notes = df_notes → notes' = df_notes) := by
  rw [reshape_data] at h
  cases h1 : remove_column_name_note_numbers (strip_column_names df_data)
      (strip_column_names df_notes) "Note number" with
  | error e => rw [h1] at h; exact absurd h (by simp)
  | ok d2 =>
    rw [h1] at h
    simp only at h
    cases h2 : split_column_on_delimiter d2 "Demographic variable"
        "Demographic variable code" "Demographic variable name" ds with
    | error e => rw [h2] at h; exact absurd h (by simp)
    | ok d3 =>
      rw [h2] at h
      simp only at h
      cases h3 : split_demographic_variable_name_column d3 "Demographic variable name" with
      | error e => rw [h3] at h; exact absurd h (by simp)
      | ok d4 =>
        rw [h3] at h
        simp only at h
        cases h4 : split_column_on_delimiter (unpivot_dataframe d4) "Measure"
            "Measure code" "Measure name" ds with
        | error e => rw [h4] at h; exact absurd h (by simp)
        | ok d6 =>
          rw [h4] at h
          simp only at h
          cases h5 : split_measure_name_column d6 "Measure name" with
          | error e => rw [h5] at h; exact absurd h (by simp)
          | ok d7 =>
            rw [h5] at h
            simp only at h
            simp only [Except.ok.injEq, Prod.mk.injEq] at h
            obtain ⟨-, rfl⟩ := h
            exact ⟨rfl, fun he => he⟩

/-- Witness for C9 (amended) at the concrete successful run above. -/
theorem reshape_notes_only_stripped_witness :
    (⟨[("Note number", ["1"])]⟩ : DataFrame)
        = strip_column_names ⟨[(" Note number ", ["1"])]⟩ ∧
      (strip_column_names ⟨[(" Note number ", ["1"])]⟩ = ⟨[(" Note number ", ["1"])]⟩ →
        (⟨[("Note number", ["1"])]⟩ : DataFrame) = ⟨[(" Note number ", ["1"])]⟩) :=
  reshape_notes_only_stripped
    ⟨[("Demographic variable", ["D1: Gender"]), ("Response", ["Male"]),
      ("M1: Score [1]", ["5"])]⟩
    ⟨[(" Note number ", ["1"])]⟩ [":"]
    ⟨[("Demographic variable code", ["D1"]), ("Demographic variable name", ["Gender"]),
      ("Derived from", [""]), ("Response", ["Male"]), ("Measure code", ["M1"]),
      ("Measure name", ["Score"]), ("Definition", [""]), ("Value", ["5"])]⟩
    ⟨[("Note number", ["1"])]⟩ (by rfl)

/-! ## Claim C2: the unpivoter

`pd.melt` stacks one block per measure column, so the output is grouped by
measure column first and by original row within each block — not grouped by
original row first as the claim states. -/

/-- The row list the claim describes: grouped by original row first, then by
original measure-column order. -/
def unpivotRowsRowMajor (df : DataFrame) : List (List String) :=
  let keep := keepCandidates.filter (fun c => df.columns.contains c)
  let meas := df.columns.filter (fun c => ¬ keep.contains c)
  (List.range df.height).flatMap (fun i => meas.map (fun v =>
    keep.map (fun c => (df.getCol c).getD i "") ++ [v, (df.getCol v).getD i ""]))

/-- The row list the code produces: grouped by measure column first (one
melt block per measure), then by original row within the block. -/
def unpivotRowsColMajor (df : DataFrame) : List (List String) :=
  let keep := keepCandidates.filter (fun c => df.columns.contains c)
  let meas := df.columns.filter (fun c => ¬ keep.contains c)
  meas.flatMap (fun v => (List.range df.height).map (fun i =>
    keep.map (fun c => (df.getCol c).getD i "") ++ [v, (df.getCol v).getD i ""]))

/-- Length of a flat map with blocks of constant length. -/
theorem length_flatMap_const {α β : Type} (l : List α) (f : α → List β) (n : Nat)
    (h : ∀ x ∈ l, (f x).length = n) : (l.flatMap f).length = l.length * n := by
  induction l with
  | nil => simp
  | cons x xs ih =>
    simp only [List.flatMap_cons, List.length_append, h x (by simp),
      ih (fun y hy => h y (by simp [hy])), List.length_cons]
    ring

/-- Rows of a frame whose columns are pointwise concatenations split as the
rows of the two stacked frames (vertical concatenation). -/
theorem rows_vcat (l : List (String × List String × List String)) (a b : Nat)
    (ha : ∀ p ∈ l, p.2.1.length = a) (hb : ∀ p ∈ l, p.2.2.length = b) :
    DataFrame.rows ⟨l.map (fun p => (p.1, p.2.1 ++ p.2.2))⟩
      = DataFrame.rows ⟨l.map (fun p => (p.1, p.2.1))⟩
        ++ DataFrame.rows ⟨l.map (fun p => (p.1, p.2.2))⟩ := by
  cases l with
  | nil => simp [DataFrame.rows, DataFrame.height]
  | cons q l' =>
    have hq1 := ha q (by simp)
    have hq2 := hb q (by simp)
    have hrow1 : ∀ i, i < a →
        DataFrame.row ⟨(q.1, q.2.1 ++ q.2.2) :: l'.map (fun p => (p.1, p.2.1 ++ p.2.2))⟩ i
          = DataFrame.row ⟨(q.1, q.2.1) :: l'.map (fun p => (p.1, p.2.1))⟩ i := by
      intro i hi
      simp only [DataFrame.row, List.map_cons, List.map_map, Function.comp]
      congr 1
      · exact List.getD_append _ _ "" i (by rw [hq1]; exact hi)
      · apply List.map_congr_left
        intro p hp
        show (p.2.1 ++ p.2.2).getD i "" = p.2.1.getD i ""
        exact List.getD_append _ _ "" i (by rw [ha p (by simp [hp])]; exact hi)
    have hrow2 : ∀ j, j < b →
        DataFrame.row ⟨(q.1, q.2.1 ++ q.2.2) :: l'.map (fun p => (p.1, p.2.1 ++ p.2.2))⟩ (a + j)
          = DataFrame.row ⟨(q.1, q.2.2) :: l'.map (fun p => (p.1, p.2.2))⟩ j := by
      intro j hj
      simp only [DataFrame.row, List.map_cons, List.map_map, Function.comp]
      congr 1
      · rw [List.getD_append_right _ _ "" (a + j) (by rw [hq1]; omega), hq1]
        congr 1
        omega
      · apply List.map_congr_left
        intro p hp
        show (p.2.1 ++ p.2.2).getD (a + j) "" = p.2.2.getD j ""
        rw [List.getD_append_right _ _ "" (a + j) (by rw [ha p (by simp [hp])]; omega),
          ha p (by simp [hp])]
        congr 1
        omega
    simp only [DataFrame.rows, DataFrame.height, List.map_cons]
    rw [List.length_append, hq1, hq2, List.range_add, List.map_append, List.map_map]
    congr 1
    · exact List.map_congr_left (fun i hi => hrow1 i (List.mem_range.mp hi))
    · apply List.map_congr_left
      intro j hj
      simp only [Function.comp]
      exact hrow2 j (List.mem_range.mp hj)

/-- Rows of the melt of `df`: one block per measure column, each block
containing every original row in order. -/
theorem melt_rows (df : DataFrame) (keep : List String) :
    ∀ (meas : List String),
      (∀ c ∈ keep, (df.getCol c).length = df.height) →
      (∀ v ∈ meas, (df.getCol v).length = df.height) →
      (melt df keep meas "Measure" "Value").rows
        = meas.flatMap (fun v => (List.range df.height).map (fun i =>
            keep.map (fun c => (df.getCol c).getD i "") ++ [v, (df.getCol v).getD i ""])) := by
  intro meas
  induction meas with
  | nil =>
    intro _ _
    cases keep with
    | nil => simp [melt, DataFrame.rows, DataFrame.height]
    | cons c ks => simp [melt, DataFrame.rows, DataFrame.height]
  | cons v meas ih =>
    intro hkeep hmeas
    have hvlen := hmeas v (by simp)
    have hmeas' : ∀ w ∈ meas, (df.getCol w).length = df.height :=
      fun w hw => hmeas w (by simp [hw])
    have hblock : melt df keep (v :: meas) "Measure" "Value"
        = ⟨(keep.map (fun c => (c, df.getCol c, meas.flatMap (fun _ => df.getCol c)))
            ++ [("Measure", List.replicate df.height v,
                  meas.flatMap (fun w => List.replicate df.height w)),
                ("Value", df.getCol v, meas.flatMap (fun w => df.getCol w))]).map
            (fun p => (p.1, p.2.1 ++ p.2.2))⟩ := by
      simp [melt, List.map_map, Function.comp]
    have htop : (keep.map (fun c => (c, df.getCol c, meas.flatMap (fun _ => df.getCol c)))
          ++ [("Measure", List.replicate df.height v,
                meas.flatMap (fun w => List.replicate df.height w)),
              ("Value", df.getCol v, meas.flatMap (fun w => df.getCol w))]).map
          (fun p => (p.1, p.2.1))
        = keep.map (fun c => (c, df.getCol c))
            ++ [("Measure", List.replicate df.height v), ("Value", df.getCol v)] := by
      simp [List.map_map, Function.comp]
    have hbot : (keep.map (fun c => (c, df.getCol c, meas.flatMap (fun _ => df.getCol c)))
          ++ [("Measure", List.replicate df.height v,
                meas.flatMap (fun w => List.replicate df.height w)),
              ("Value", df.getCol v, meas.flatMap (fun w => df.getCol w))]).map
          (fun p => (p.1, p.2.2))
        = (melt df keep meas "Measure" "Value").cols := by
      simp [melt, List.map_map, Function.comp]
    have hlen1 : ∀ p ∈ (keep.map (fun c => (c, df.getCol c, meas.flatMap (fun _ => df.getCol c)))
          ++ [("Measure", List.replicate df.height v,
                meas.flatMap (fun w => List.replicate df.height w)),
              ("Value", df.getCol v, meas.flatMap (fun w => df.getCol w))]),
        p.2.1.length = df.height := by
      intro p hp
      rcases List.mem_append.mp hp with hp | hp
      · obtain ⟨c, hc, rfl⟩ := List.mem_map.mp hp
        exact hkeep c hc
      · simp only [List.mem_cons, List.not_mem_nil, or_false] at hp
        rcases hp with rfl | rfl
        · simp
        · exact hvlen
    have hlen2 : ∀ p ∈ (keep.map (fun c => (c, df.getCol c, meas.flatMap (fun _ => df.getCol c)))
          ++ [("Measure", List.replicate df.height v,
                meas.flatMap (fun w => List.replicate df.height w)),
              ("Value", df.getCol v, meas.flatMap (fun w => df.getCol w))]),
        p.2.2.length = meas.length * df.height := by
      intro p hp
      rcases List.mem_append.mp hp with hp | hp
      · obtain ⟨c, hc, rfl⟩ := List.mem_map.mp hp
        exact length_flatMap_const meas _ df.height (fun x _ => hkeep c hc)
      · simp only [List.mem_cons, List.not_mem_nil, or_false] at hp
        rcases hp with rfl | rfl
        · exact length_flatMap_const meas _ df.height (fun x _ => by simp)
        · exact length_flatMap_const meas _ df.height (fun x hx => hmeas' x hx)
    have hcols : (melt df keep (v :: meas) "Measure" "Value").rows
        = DataFrame.rows ⟨(keep.map (fun c => (c, df.getCol c, meas.flatMap (fun _ => df.getCol c)))
            ++ [("Measure", List.replicate df.height v,
                  meas.flatMap (fun w => List.replicate df.height w)),
                ("Value", df.getCol v, meas.flatMap (fun w => df.getCol w))]).map
            (fun p => (p.1, p.2.1 ++ p.2.2))⟩ := by
      rw [hblock]
    rw [hcols, rows_vcat _ df.height (meas.length * df.height) hlen1 hlen2, htop]
    have hbot' : DataFrame.rows ⟨(keep.map (fun c => (c, df.getCol c, meas.flatMap (fun _ => df.getCol c)))
          ++ [("Measure", List.replicate df.height v,
                meas.flatMap (fun w => List.replicate df.height w)),
              ("Value", df.getCol v, meas.flatMap (fun w => df.getCol w))]).map
          (fun p => (p.1, p.2.2))⟩
        = (melt df keep meas "Measure" "Value").rows := by
      rw [hbot]
    rw [hbot', ih hkeep hmeas', List.flatMap_cons]
    congr 1
    -- rows of the single-measure block
    have hheight : DataFrame.height
        ⟨keep.map (fun c => (c, df.getCol c))
          ++ [("Measure", List.replicate df.height v), ("Value", df.getCol v)]⟩
        = df.height := by
      cases hk : keep with
      | nil => simp [DataFrame.height]
      | cons c ks =>
        have := hkeep c (by simp [hk])
        simp [DataFrame.height, this]
    rw [DataFrame.rows, hheight]
    apply List.map_congr_left
    intro i hi
    rw [List.mem_range] at hi
    rw [DataFrame.row]
    simp only [List.map_append, List.map_map, Function.comp, List.map_cons, List.map_nil]
    congr 1
    simp [List.getD, List.getElem?_replicate, hi]

/-- Columns named in a well-formed frame have full-height cell lists. -/
theorem getCol_length_of_mem (df : DataFrame)
    (hwf : ∀ p ∈ df.cols, p.2.length = df.height) :
    ∀ c ∈ df.columns, (df.getCol c).length = df.height := by
  intro c hc
  obtain ⟨p, hp, rfl⟩ := List.mem_map.mp hc
  cases hf : df.cols.find? (fun q => q.1 = p.1) with
  | none =>
    have := List.find?_eq_none.mp hf p hp
    simp at this
  | some q =>
    have hqmem := List.mem_of_find?_eq_some hf
    rw [DataFrame.getCol, DataFrame.getCol?, hf]
    simpa using hwf q hqmem

/-- C2 (counterexample): on a two-row table with measure columns M1, M2 the
melt output is grouped by measure column first (code), not by original row
first (claim) — the two orders differ at the second output row. -/
theorem unpivot_row_order_cex :
    (unpivot_dataframe ⟨[("Response", ["r0", "r1"]), ("M1", ["a0", "a1"]),
        ("M2", ["b0", "b1"])]⟩).rows
      = [["r0", "M1", "a0"], ["r1", "M1", "a1"], ["r0", "M2", "b0"], ["r1", "M2", "b1"]] ∧
    unpivotRowsRowMajor ⟨[("Response", ["r0", "r1"]), ("M1", ["a0", "a1"]),
        ("M2", ["b0", "b1"])]⟩
      = [["r0", "M1", "a0"], ["r0", "M2", "b0"], ["r1", "M1", "a1"], ["r1", "M2", "b1"]] ∧
    (unpivot_dataframe ⟨[("Response", ["r0", "r1"]), ("M1", ["a0", "a1"]),
        ("M2", ["b0", "b1"])]⟩).rows
      ≠ unpivotRowsRowMajor ⟨[("Response", ["r0", "r1"]), ("M1", ["a0", "a1"]),
        ("M2", ["b0", "b1"])]⟩ := by
  refine ⟨by decide, by decide, by decide⟩

/-- C2 (amended): the identifier columns are exactly those present from the
fixed ordered candidate set, every other column is a measure column, and the
output carries one row per (original row × measure column) pair with the
original row's identifier values — ordered grouped by measure column first
(one stacked melt block per measure), then by original row within the block. -/
theorem unpivot_matches_spec_blocked (df : DataFrame)
    (hwf : ∀ p ∈ df.cols, p.2.length = df.height) :
    (unpivot_dataframe df).columns
        = keepCandidates.filter (fun c => df.columns.contains c) ++ ["Measure", "Value"] ∧
    (unpivot_dataframe df).rows = unpivotRowsColMajor df := by
  have hget := getCol_length_of_mem df hwf
  constructor
  · simp [unpivot_dataframe, melt, DataFrame.columns, List.map_map, Function.comp_def]
  · have hrfl : unpivot_dataframe df
        = melt df (keepCandidates.filter (fun c => df.columns.contains c))
            (df.columns.filter
              (fun c => ¬ (keepCandidates.filter (fun c => df.columns.contains c)).contains c))
            "Measure" "Value" := rfl
    rw [hrfl, melt_rows df _ _ ?_ ?_]
    · rfl
    · intro c hc
      have := (List.mem_filter.mp hc).2
      simp only [List.elem_eq_mem, decide_eq_true_eq] at this
      exact hget c this
    · intro v hv
      exact hget v (List.mem_filter.mp hv).1

/-- Witness for C2 (amended) at the spec's one-row example table. -/
theorem unpivot_matches_spec_blocked_witness :
    (unpivot_dataframe ⟨[("Response", ["r"]), ("M1", ["m1"]), ("M2", ["m2"])]⟩).columns
        = keepCandidates.filter (fun c =>
            (DataFrame.columns ⟨[("Response", ["r"]), ("M1", ["m1"]), ("M2", ["m2"])]⟩).contains c)
          ++ ["Measure", "Value"] ∧
      (unpivot_dataframe ⟨[("Response", ["r"]), ("M1", ["m1"]), ("M2", ["m2"])]⟩).rows
        = unpivotRowsColMajor ⟨[("Response", ["r"]), ("M1", ["m1"]), ("M2", ["m2"])]⟩ :=
  unpivot_matches_spec_blocked ⟨[("Response", ["r"]), ("M1", ["m1"]), ("M2", ["m2"])]⟩
    (by decide)

/-! ## Claim C8: the value/response cleaner

Step 2's regex is anchored with `$`, which in Python also matches just
before a string-final newline; the claim's "trailing suffix" reading misses
that case. -/

/-- Step 2 exactly as the claim words it: remove a trailing literal
`(England)` suffix with optional preceding whitespace (end of string only). -/
def englandStrictRemove (l : List Char) : List Char :=
  match stripEnglandRev l.reverse with
  | some r => r.reverse
  | none => l

/-- One Response cell after the claim's steps 1 and 2, with step 2 given by
`eng`. -/
def cleanSpecCell (eng : List Char → List Char) (reps : List (String × String))
    (v : String) : String :=
  String.mk (eng (applyReplacements reps v).data)

/-- The frame the claim describes: only the Response column changes; every
Response value passes through the replacement mapping and the England-suffix
removal `eng`; when a target demographic name is supplied, exactly the rows
whose demographic-variable-name cell equals it get the first-word-preserving
lower-casing, and when none is supplied that step is skipped entirely. -/
def cleanSpecFrame (eng : List Char → List Char) (df : DataFrame)
    (reps : List (String × String)) (tgt : Option String) : DataFrame :=
  ⟨df.cols.map (fun p =>
    if p.1 = "Response" then
      (p.1, match tgt with
        | none => p.2.map (cleanSpecCell eng reps)
        | some t => List.zipWith (fun dv rv =>
            if dv = t then transform_response (cleanSpecCell eng reps rv)
            else cleanSpecCell eng reps rv)
          (df.getCol "Demographic variable name") p.2)
    else p)⟩

/-- C8 (counterexample): on the Response value `"London (England)\n"` the
code removes the parenthetical before the string-final newline (Python `$`),
while the claim's step 2 — removal of a *trailing* suffix — leaves the value
unchanged; the claim as stated is false at this input. -/
theorem clean_data_newline_cex :
    clean_data ⟨[("Response", ["London (England)\n"])]⟩ [] none
        = .ok ⟨[("Response", ["London\n"])]⟩ ∧
    cleanSpecFrame englandStrictRemove ⟨[("Response", ["London (England)\n"])]⟩ [] none
        = ⟨[("Response", ["London (England)\n"])]⟩ ∧
    (⟨[("Response", ["London\n"])]⟩ : DataFrame) ≠ ⟨[("Response", ["London (England)\n"])]⟩ := by
  refine ⟨by decide, by decide, by decide⟩

/-- `mapCol` twice on the same column composes the cell functions. -/
theorem mapCol_mapCol (df : DataFrame) (n : String) (f g : String → String) :
    (df.mapCol n f).mapCol n g = df.mapCol n (fun s => g (f s)) := by
  simp only [DataFrame.mapCol, List.map_map]
  congr 1
  apply List.map_congr_left
  intro p _
  by_cases h : p.1 = n
  · simp [Function.comp, h, List.map_map]
  · simp [Function.comp, h]

/-- `mapCol` does not change the column names. -/
theorem columns_mapCol (df : DataFrame) (n : String) (f : String → String) :
    (df.mapCol n f).columns = df.columns := by
  simp only [DataFrame.columns, DataFrame.mapCol, List.map_map]
  apply List.map_congr_left
  intro p _
  by_cases h : p.1 = n
  · simp [Function.comp, h]
  · simp [Function.comp, h]

/-- `mapCol` on one column leaves every differently-named column's cells
unchanged. -/
theorem cols_mk (l : List (String × List String)) : (⟨l⟩ : DataFrame).cols = l := rfl

/-- The `find?` underlying `getCol` ignores a rename-preserving map of a
differently-named column. -/
theorem find?_mapCol_ne (n m : String) (f : String → String) :
    ∀ (l : List (String × List String)),
      (l.map (fun p => if p.1 = n then (p.1, List.map f p.2) else p)).find?
          (fun q => q.1 = m)
        = ((l.find? (fun q => q.1 = m)).map
            (fun p => if p.1 = n then (p.1, List.map f p.2) else p)) := by
  intro l
  induction l with
  | nil => rfl
  | cons p rest ih =>
    rw [List.map_cons]
    by_cases hpm : p.1 = m
    · have hfst : (if p.1 = n then (p.1, List.map f p.2) else p).1 = p.1 := by
        by_cases hn : p.1 = n <;> simp [hn]
      rw [List.find?_cons_of_pos _ (by
          show decide ((if p.1 = n then (p.1, List.map f p.2) else p).1 = m) = true
          rw [hfst]; simp [hpm]),
        List.find?_cons_of_pos _ (by simp [hpm])]
      rfl
    · have hfst : (if p.1 = n then (p.1, List.map f p.2) else p).1 = p.1 := by
        by_cases hn : p.1 = n <;> simp [hn]
      rw [List.find?_cons_of_neg _ (by
          show ¬ decide ((if p.1 = n then (p.1, List.map f p.2) else p).1 = m) = true
          rw [hfst]; simp [hpm]),
        List.find?_cons_of_neg _ (by simp [hpm])]
      exact ih

/-- `mapCol` on one column leaves every differently-named column's cells
unchanged. -/
theorem getCol_mapCol_ne (df : DataFrame) (n m : String) (f : String → String)
    (h : m ≠ n) : (df.mapCol n f).getCol m = df.getCol m := by
  rw [DataFrame.getCol, DataFrame.getCol, DataFrame.getCol?, DataFrame.getCol?, DataFrame.mapCol,
    cols_mk, find?_mapCol_ne n m f df.cols]
  cases hf : df.cols.find? (fun q => q.1 = m) with
  | none => rfl
  | some q =>
    have hq := List.find?_some hf
    simp only [decide_eq_true_eq] at hq
    have hqn : ¬ q.1 = n := by rw [hq]; exact h
    simp [hqn]

/-- The first two cleaning steps amount to one `mapCol` over Response. -/
theorem clean_steps12_mapCol (df : DataFrame) (reps : List (String × String)) :
    ((if reps.isEmpty then df else df.mapCol "Response" (applyReplacements reps)).mapCol
        "Response" (fun s => String.mk (removeEngland s.data)))
      = df.mapCol "Response"
          (fun v => String.mk (removeEngland (applyReplacements reps v).data)) := by
  by_cases hreps : reps.isEmpty = true
  · rw [if_pos hreps]
    rw [List.isEmpty_iff] at hreps
    subst hreps
    rfl
  · rw [if_neg hreps, mapCol_mapCol]

/-- C8 (amended): `clean_data` behaves as the claim describes with step 2
refined to Python's `$` semantics — the `(England)` suffix (with optional
preceding whitespace) is removed also when a single string-final newline
follows it, the newline being preserved; all three steps touch only the
Response column, and step 3 runs exactly when a target name is supplied, on
exactly the rows whose demographic-variable-name equals it. -/
theorem clean_data_matches_spec (df : DataFrame) (reps : List (String × String))
    (tgt : Option String)
    (hresp : "Response" ∈ df.columns)
    (hdem : ∀ t, tgt = some t → "Demographic variable name" ∈ df.columns) :
    clean_data df reps tgt = .ok (cleanSpecFrame removeEngland df reps tgt) := by
  have hcb : df.columns.contains "Response" = true := by simpa using hresp
  rw [clean_data, if_neg (by simp [hresp])]
  simp only [clean_steps12_mapCol df reps]
  cases tgt with
  | none =>
    rfl
  | some t =>
    have hdem' : "Demographic variable name" ∈ df.columns := hdem t rfl
    simp only [lowercase_response_except_first_word]
    rw [if_neg (by simp [columns_mapCol, hdem']),
      if_neg (by simp [columns_mapCol, hresp])]
    congr 1
    rw [getCol_mapCol_ne df "Response" "Demographic variable name" _ (by decide)]
    rw [cleanSpecFrame, DataFrame.mapCol, cols_mk, List.map_map]
    congr 1
    apply List.map_congr_left
    intro p _
    obtain ⟨nm, vals⟩ := p
    by_cases hp : nm = "Response"
    · subst hp
      simp [Function.comp, List.zipWith_map_right]
      rfl
    · simp [Function.comp, hp]

/-- Witness for C8 (amended): the spec's three examples in one frame — the
grade mapping, the England suffix, and the selective lower-casing. -/
theorem clean_data_matches_spec_witness :
    clean_data
        ⟨[("Demographic variable name", ["Grade", "Region", "Work pattern"]),
          ("Response", ["SEO/HEO", "London (England)", "FULL TIME WORK"])]⟩
        [("SEO/HEO", "HEO/SEO")] (some "Work pattern")
      = .ok (cleanSpecFrame removeEngland
          ⟨[("Demographic variable name", ["Grade", "Region", "Work pattern"]),
            ("Response", ["SEO/HEO", "London (England)", "FULL TIME WORK"])]⟩
          [("SEO/HEO", "HEO/SEO")] (some "Work pattern")) :=
  clean_data_matches_spec
    ⟨[("Demographic variable name", ["Grade", "Region", "Work pattern"]),
      ("Response", ["SEO/HEO", "London (England)", "FULL TIME WORK"])]⟩
    [("SEO/HEO", "HEO/SEO")] (some "Work pattern")
    (by decide) (fun t ht => by decide)

/-! ## Claim C6: the footnote stripper

The claim-side reading of `re.sub`: repeatedly find the *leftmost* position
at which one of the four bracketed footnote forms matches, remove it, and
continue after it — so every reference is removed, not just the first.  The
four forms are the translations of the four regex alternatives
(`firstMatchAt`); the theorem relates the source's single left-to-right
character scan to this leftmost-removal recursion. -/

/-- Every successful footnote-pattern match has positive length and only
occurs on a non-empty list (all four forms start with `[`). -/
theorem matchNoteAux_pos (n rest1 : List Char) :
    ∀ (k j : Nat), matchNoteAux n rest1 k = some j → 1 ≤ j := by
  intro k
  induction k with
  | zero =>
    intro j h
    rw [matchNoteAux] at h
    by_cases hc : noteKCheck n rest1 0 = true
    · rw [if_pos hc] at h; injection h with h'; omega
    · rw [if_neg hc] at h; exact absurd h (by simp)
  | succ k ih =>
    intro j h
    rw [matchNoteAux] at h
    by_cases hc : noteKCheck n rest1 (k + 1) = true
    · rw [if_pos hc] at h; injection h with h'; omega
    · rw [if_neg hc] at h; exact ih j h

/-- `Option.orElse` on a `some`. -/
theorem orElse_some {α : Type} (a : α) (f : Unit → Option α) : (some a).orElse f = some a := rfl

/-- `Option.orElse` on a `none`. -/
theorem orElse_none {α : Type} (f : Unit → Option α) : (none : Option α).orElse f = f () := rfl

/-- Positivity and non-emptiness for the combined alternation. -/
theorem firstMatchAt_some_pos (ids : List (List Char)) :
    ∀ (l : List Char) (k : Nat), firstMatchAt ids l = some k → 1 ≤ k ∧ l ≠ [] := by
  have hlit : ∀ (n l : List Char) (k : Nat), matchLit n l = some k → 1 ≤ k ∧ l ≠ [] := by
    intro n l k h
    cases l with
    | nil => exact absurd h (by simp [matchLit])
    | cons c rest =>
      refine ⟨?_, by simp⟩
      rw [matchLit] at h
      by_cases hc : c = '['
      · rw [if_pos hc] at h
        by_cases h2 : (ciPrefix n rest && headIsRBracket (rest.drop n.length)) = true
        · rw [if_pos h2] at h; injection h with h'; omega
        · rw [if_neg h2] at h; exact absurd h (by simp)
      · rw [if_neg hc] at h; exact absurd h (by simp)
  have hnote : ∀ (n l : List Char) (k : Nat), matchNote n l = some k → 1 ≤ k ∧ l ≠ [] := by
    intro n l k h
    cases l with
    | nil => exact absurd h (by simp [matchNote])
    | cons c rest =>
      refine ⟨?_, by simp⟩
      rw [matchNote] at h
      by_cases hc : c = '['
      · rw [if_pos hc] at h
        by_cases h2 : ciPrefix "note".data rest = true
        · rw [if_pos h2] at h
          exact matchNoteAux_pos n (rest.drop 4) _ k h
        · rw [if_neg h2] at h; exact absurd h (by simp)
      · rw [if_neg hc] at h; exact absurd h (by simp)
  have hnotes : ∀ (l : List Char) (k : Nat), matchNotes l = some k → 1 ≤ k ∧ l ≠ [] := by
    intro l k h
    cases l with
    | nil => exact absurd h (by simp [matchNotes])
    | cons c rest =>
      refine ⟨?_, by simp⟩
      rw [matchNotes] at h
      by_cases hc : c = '['
      · rw [if_pos hc] at h
        by_cases h2 : ciPrefix "note".data rest = true
        · rw [if_pos h2] at h
          simp only at h
          split at h
          all_goals split at h
          all_goals first
            | (injection h with h'; omega)
            | exact absurd h (by simp)
        · rw [if_neg h2] at h; exact absurd h (by simp)
      · rw [if_neg hc] at h; exact absurd h (by simp)
  have hnum : ∀ (l : List Char) (k : Nat), matchNumList l = some k → 1 ≤ k ∧ l ≠ [] := by
    intro l k h
    cases l with
    | nil => exact absurd h (by simp [matchNumList])
    | cons c rest =>
      refine ⟨?_, by simp⟩
      rw [matchNumList] at h
      by_cases hc : c = '['
      · rw [if_pos hc] at h
        simp only at h
        split at h
        · injection h with h'; omega
        · exact absurd h (by simp)
      · rw [if_neg hc] at h; exact absurd h (by simp)
  induction ids with
  | nil =>
    intro l k h
    rw [firstMatchAt] at h
    cases hm : matchNotes l with
    | some j =>
      rw [hm, orElse_some] at h
      injection h with h'
      subst h'
      exact hnotes l j hm
    | none =>
      rw [hm, orElse_none] at h
      exact hnum l k h
  | cons n rest ih =>
    intro l k h
    rw [firstMatchAt] at h
    cases hm : matchLit n l with
    | some j =>
      rw [hm, orElse_some, orElse_some] at h
      injection h with h'
      subst h'
      exact hlit n l j hm
    | none =>
      rw [hm, orElse_none] at h
      cases hm2 : matchNote n l with
      | some j =>
        rw [hm2, orElse_some] at h
        injection h with h'
        subst h'
        exact hnote n l j hm2
      | none =>
        rw [hm2, orElse_none] at h
        exact ih l k h

/-- No footnote pattern matches at the end of the string. -/
theorem firstMatchAt_nil (ids : List (List Char)) : firstMatchAt ids [] = none := by
  induction ids with
  | nil => rfl
  | cons n rest ih =>
    rw [firstMatchAt]
    rw [show matchLit n [] = none from rfl, show matchNote n [] = none from rfl,
      orElse_none, orElse_none]
    exact ih

/-- The leftmost position (and match length) at which some footnote pattern
matches, scanning left to right — the claim's "every bracketed footnote
reference". -/
def findNextRef (ids : List (List Char)) : List Char → Option (Nat × Nat)
  | [] => (firstMatchAt ids []).map (fun k => (0, k))
  | c :: cs =>
    match firstMatchAt ids (c :: cs) with
    | some k => some (0, k)
    | none => (findNextRef ids cs).map (fun p => (p.1 + 1, p.2))

/-- A found reference has positive length and starts inside the list. -/
theorem findNextRef_some (ids : List (List Char)) :
    ∀ (l : List Char) (i k : Nat), findNextRef ids l = some (i, k) →
      1 ≤ k ∧ i < l.length := by
  intro l
  induction l with
  | nil =>
    intro i k h
    rw [findNextRef, firstMatchAt_nil] at h
    exact absurd h (by simp)
  | cons c cs ih =>
    intro i k h
    rw [findNextRef] at h
    cases hm : firstMatchAt ids (c :: cs) with
    | some j =>
      rw [hm] at h
      injection h with h'
      rw [Prod.mk.injEq] at h'
      obtain ⟨rfl, rfl⟩ := h'
      exact ⟨(firstMatchAt_some_pos ids _ _ hm).1, by simp⟩
    | none =>
      rw [hm] at h
      simp only [Option.map_eq_some'] at h
      obtain ⟨⟨i', k'⟩, hrec, heq⟩ := h
      rw [Prod.mk.injEq] at heq
      obtain ⟨rfl, rfl⟩ := heq
      obtain ⟨hk, hi⟩ := ih i' k' hrec
      exact ⟨hk, by simpa using hi⟩

/-- The claim-side removal: repeatedly remove the leftmost footnote
reference and continue with the text after it, so that every reference is
removed, not just the first. -/
def claimRemoveAll (ids : List (List Char)) (l : List Char) : List Char :=
  match h : findNextRef ids l with
  | none => l
  | some (i, k) =>
    l.take i ++ claimRemoveAll ids (l.drop (i + k))
termination_by l.length
decreasing_by
  obtain ⟨hk, hi⟩ := findNextRef_some ids l i k h
  rw [List.length_drop]
  omega

/-- Unfolding `claimRemoveAll` when no reference remains. -/
theorem claimRemoveAll_none (ids : List (List Char)) (l : List Char)
    (h : findNextRef ids l = none) : claimRemoveAll ids l = l := by
  rw [claimRemoveAll.eq_def]
  split
  · rfl
  · next i k hsome => rw [h] at hsome; exact absurd hsome (by simp)

/-- Unfolding `claimRemoveAll` at the leftmost reference. -/
theorem claimRemoveAll_some (ids : List (List Char)) (l : List Char) (i k : Nat)
    (h : findNextRef ids l = some (i, k)) :
    claimRemoveAll ids l = l.take i ++ claimRemoveAll ids (l.drop (i + k)) := by
  rw [claimRemoveAll.eq_def]
  split
  · next hnone => rw [h] at hnone; exact absurd hnone (by simp)
  · next i' k' hsome =>
    rw [h] at hsome
    injection hsome with h'
    rw [Prod.mk.injEq] at h'
    obtain ⟨rfl, rfl⟩ := h'
    rfl

/-- `findNextRef` on the empty list. -/
theorem findNextRef_nil (ids : List (List Char)) : findNextRef ids [] = none := by
  rw [findNextRef, firstMatchAt_nil]
  rfl

/-- The source's fueled single-pass `re.sub` scan equals the claim-side
leftmost-removal recursion (for sufficient fuel). -/
theorem reSubGo_eq_claim (ids : List (List Char)) :
    ∀ (n : Nat) (l : List Char), l.length ≤ n → reSubGo ids n l = claimRemoveAll ids l := by
  intro n
  induction n with
  | zero =>
    intro l hl
    have hnil : l = [] := List.length_eq_zero.mp (Nat.le_zero.mp hl)
    subst hnil
    rw [show reSubGo ids 0 [] = [] from rfl, claimRemoveAll_none ids [] (findNextRef_nil ids)]
  | succ n ih =>
    intro l hl
    cases l with
    | nil =>
      rw [show reSubGo ids (n + 1) [] = [] from rfl,
        claimRemoveAll_none ids [] (findNextRef_nil ids)]
    | cons c cs =>
      rw [reSubGo]
      cases hm : firstMatchAt ids (c :: cs) with
      | some k =>
        simp only
        have hnext : findNextRef ids (c :: cs) = some (0, k) := by
          rw [findNextRef, hm]
        rw [claimRemoveAll_some ids _ 0 k hnext]
        simp only [List.take_zero, List.nil_append, Nat.zero_add]
        have hk := (firstMatchAt_some_pos ids _ _ hm).1
        have hdrop : (c :: cs).drop k = cs.drop (k - 1) := by
          cases k with
          | zero => omega
          | succ k' => simp
        rw [hdrop]
        apply ih
        rw [List.length_drop]
        simp only [List.length_cons] at hl
        omega
      | none =>
        simp only
        cases hrec : findNextRef ids cs with
        | none =>
          have hnext : findNextRef ids (c :: cs) = none := by
            rw [findNextRef, hm, hrec]
            rfl
          rw [claimRemoveAll_none ids _ hnext, ih cs (by simpa using Nat.le_of_succ_le_succ hl),
            claimRemoveAll_none ids cs hrec]
        | some p =>
          obtain ⟨i, k⟩ := p
          have hnext : findNextRef ids (c :: cs) = some (i + 1, k) := by
            rw [findNextRef, hm, hrec]
            rfl
          rw [claimRemoveAll_some ids _ (i + 1) k hnext,
            ih cs (by simpa using Nat.le_of_succ_le_succ hl),
            claimRemoveAll_some ids cs i k hrec]
          rw [show i + 1 + k = (i + k) + 1 from by omega]
          rw [List.take_succ_cons, List.drop_succ_cons]
          rfl

/-- The source `re.sub` scan equals the claim-side leftmost removal. -/
theorem reSubAll_eq_claimRemoveAll (ids : List (List Char)) (l : List Char) :
    reSubAll ids l = claimRemoveAll ids l :=
  reSubGo_eq_claim ids l.length l le_rfl

/-- C6: on success, `remove_column_name_note_numbers` rewrites every column
name by removing every (not just the first) bracketed footnote reference
matching one of the four forms — `[<id>]` or `[note <id>]` per registry
value (case-insensitive, optional whitespace after `note`), `[note(s) ...]`
over digits, whitespace, commas and the letters of `and`, or a bracketed
span of digits, whitespace and commas — and then re-strips residual
whitespace; in particular `[1]`, `[note 1]`, `[Note 1]`, `[1, 2]` and
`[notes 8 and 9]` are removed while `[abc]` (with `abc` not a registry
value) is left untouched. -/
theorem footnote_stripper_matches_spec :
    (∀ (df_data df_notes : DataFrame) (c : String) (res : DataFrame),
        remove_column_name_note_numbers df_data df_notes c = .ok res →
        res.cols = df_data.cols.map (fun p =>
          (String.mk (pyStrip (claimRemoveAll ((df_notes.getCol c).map String.data) p.1.data)),
            p.2))) ∧
    remove_column_name_note_numbers
        ⟨[("Happy[1][note 1][Note 1][1, 2][notes 8 and 9] [abc]", ["v"])]⟩
        ⟨[("Note number", ["1"])]⟩ "Note number"
      = .ok ⟨[("Happy [abc]", ["v"])]⟩ := by
  constructor
  · intro df_data df_notes c res h
    rw [remove_column_name_note_numbers] at h
    by_cases hc : df_notes.columns.contains c = true
    · rw [if_pos hc] at h
      injection h with h'
      subst h'
      rw [strip_column_names, cols_mk, cols_mk, List.map_map]
      apply List.map_congr_left
      intro p _
      simp only [Function.comp]
      rw [reSubAll_eq_claimRemoveAll]
      rfl
    · rw [if_neg hc] at h
      exact absurd h (by simp)
  · rfl

/-- Witness for C6: the concrete header above, with its result obtained by
the general statement. -/
theorem footnote_stripper_matches_spec_witness :
    (⟨[("Happy [abc]", ["v"])]⟩ : DataFrame).cols
      = (⟨[("Happy[1][note 1][Note 1][1, 2][notes 8 and 9] [abc]", ["v"])]⟩ : DataFrame).cols.map
          (fun p => (String.mk (pyStrip (claimRemoveAll
              ((DataFrame.getCol ⟨[("Note number", ["1"])]⟩ "Note number").map String.data)
              p.1.data)), p.2)) :=
  footnote_stripper_matches_spec.1
    ⟨[("Happy[1][note 1][Note 1][1, 2][notes 8 and 9] [abc]", ["v"])]⟩
    ⟨[("Note number", ["1"])]⟩ "Note number" ⟨[("Happy [abc]", ["v"])]⟩
    footnote_stripper_matches_spec.2

/-! ## Claim C1: the measure annotation parser

Claim-side reading: scan left to right with an integer nesting depth; a `(`
met at depth 0 opens a top-level span, which closes when the depth returns
to 0 (nested parentheses stay inside the one span); a span whose trimmed
content begins with an illustrative marker is neither collected nor removed,
any other span is removed from the label and its trimmed content collected;
the definition string joins the collected contents with `"; "` in order.
`grab` reads one span's raw content up to the closing parenthesis. -/

/-- Read the raw content of an open parenthetical at nesting depth `d ≥ 1`:
the characters up to (excluding) the `)` that returns the depth to zero, and
the rest of the text after that `)`. -/
def grab : Int → List Char → Option (List Char × List Char)
  | _, [] => none
  | d, c :: cs =>
    if c = ')' then
      if d = 1 then some ([], cs)
      else (grab (d - 1) cs).map (fun p => (c :: p.1, p.2))
    else if c = '(' then
      (grab (d + 1) cs).map (fun p => (c :: p.1, p.2))
    else
      (grab d cs).map (fun p => (c :: p.1, p.2))

/-- A successful `grab` splits its input as `raw ++ ')' :: rest`. -/
theorem grab_split : ∀ (cs : List Char) (d : Int) (raw rest : List Char),
    grab d cs = some (raw, rest) → cs = raw ++ ')' :: rest := by
  intro cs
  induction cs with
  | nil => intro d raw rest h; exact absurd h (by simp [grab])
  | cons c cs ih =>
    intro d raw rest h
    rw [grab] at h
    by_cases hc : c = ')'
    · rw [if_pos hc] at h
      by_cases hd : d = 1
      · rw [if_pos hd] at h
        injection h with h'
        rw [Prod.mk.injEq] at h'
        obtain ⟨rfl, rfl⟩ := h'
        simp [hc]
      · rw [if_neg hd, Option.map_eq_some'] at h
        obtain ⟨⟨raw', rest'⟩, hrec, heq⟩ := h
        rw [Prod.mk.injEq] at heq
        obtain ⟨rfl, rfl⟩ := heq
        simp [ih (d - 1) raw' rest' hrec]
    · rw [if_neg hc] at h
      by_cases hc2 : c = '('
      · rw [if_pos hc2, Option.map_eq_some'] at h
        obtain ⟨⟨raw', rest'⟩, hrec, heq⟩ := h
        rw [Prod.mk.injEq] at heq
        obtain ⟨rfl, rfl⟩ := heq
        simp [ih (d + 1) raw' rest' hrec]
      · rw [if_neg hc2, Option.map_eq_some'] at h
        obtain ⟨⟨raw', rest'⟩, hrec, heq⟩ := h
        rw [Prod.mk.injEq] at heq
        obtain ⟨rfl, rfl⟩ := heq
        simp [ih d raw' rest' hrec]

/-- The claim-side scan: current depth `d`, remaining text; returns the
label text kept and the collected definition contents in order. -/
def claimScan (d : Int) (cs : List Char) : List Char × List (List Char) :=
  match cs with
  | [] => ([], [])
  | c :: cs1 =>
    if c = '(' then
      if d = 0 then
        match hg : grab 1 cs1 with
        | some (raw, rest) =>
          have hlt : rest.length < cs1.length + 1 := by
            have := grab_split cs1 1 raw rest hg
            subst this
            simp only [List.length_append, List.length_cons]
            omega
          let t := pyStrip raw
          let p := claimScan 0 rest
          if markerMatch t then ('(' :: (raw ++ ')' :: p.1), p.2)
          else (p.1, t :: p.2)
        | none => (c :: cs1, [])
      else
        let p := claimScan (d + 1) cs1
        (c :: p.1, p.2)
    else if c = ')' then
      let p := claimScan (d - 1) cs1
      (c :: p.1, p.2)
    else
      let p := claimScan d cs1
      (c :: p.1, p.2)
termination_by cs.length
decreasing_by
  · simpa using hlt
  · simp
  · simp
  · simp

/-- The claim's per-cell result: label trimmed, contents joined with `"; "`. -/
def claimMeasureSplit (value : List Char) : List Char × List Char :=
  let r := claimScan 0 value
  (pyStrip r.1, pyJoin "; ".data r.2)

/-- The claim's per-cell result at the `String` level. -/
def claimMeasureSplitStr (s : String) : String × String :=
  let p := claimMeasureSplit s.data
  (String.mk p.1, String.mk p.2)

/-- `claimScan` on the empty text. -/
theorem claimScan_nil (d : Int) : claimScan d [] = ([], []) := by
  rw [claimScan]

/-- `claimScan` at a top-level `(` whose span completes. -/
theorem claimScan_open0_some (cs raw rest : List Char) (hg : grab 1 cs = some (raw, rest)) :
    claimScan 0 ('(' :: cs) =
      if markerMatch (pyStrip raw)
      then ('(' :: (raw ++ ')' :: (claimScan 0 rest).1), (claimScan 0 rest).2)
      else ((claimScan 0 rest).1, pyStrip raw :: (claimScan 0 rest).2) := by
  rw [claimScan]
  rw [if_pos rfl, if_pos rfl]
  split
  · next raw' rest' hg' =>
    rw [hg] at hg'
    injection hg' with h'
    rw [Prod.mk.injEq] at h'
    obtain ⟨rfl, rfl⟩ := h'
    rfl
  · next hg' =>
    rw [hg] at hg'
    exact absurd hg' (by simp)

/-- `claimScan` at a top-level `(` whose span never closes. -/
theorem claimScan_open0_none (cs : List Char) (hg : grab 1 cs = none) :
    claimScan 0 ('(' :: cs) = ('(' :: cs, []) := by
  rw [claimScan]
  rw [if_pos rfl, if_pos rfl]
  split
  · next raw' rest' hg' =>
    rw [hg] at hg'
    exact absurd hg' (by simp)
  · rfl

/-- `claimScan` at a `(` met below depth zero. -/
theorem claimScan_open_ne (d : Int) (cs : List Char) (hd : d ≠ 0) :
    claimScan d ('(' :: cs) = ('(' :: (claimScan (d + 1) cs).1, (claimScan (d + 1) cs).2) := by
  rw [claimScan]
  rw [if_pos rfl, if_neg hd]

/-- `claimScan` at a `)`. -/
theorem claimScan_close (d : Int) (cs : List Char) :
    claimScan d (')' :: cs) = (')' :: (claimScan (d - 1) cs).1, (claimScan (d - 1) cs).2) := by
  rw [claimScan]
  rw [if_neg (by decide : ¬ (')' = '(')), if_pos rfl]

/-- `claimScan` at an ordinary character. -/
theorem claimScan_other (d : Int) (c : Char) (cs : List Char)
    (h1 : ¬ c = '(') (h2 : ¬ c = ')') :
    claimScan d (c :: cs) = (c :: (claimScan d cs).1, (claimScan d cs).2) := by
  rw [claimScan]
  rw [if_neg h1, if_neg h2]

/-- The phase-1 scan as a recursion over the remaining text, mirroring
`measureScanStep` exactly (proof device for relating the two phases). -/
def scanAux (value : List Char) : List Char → Nat → Int → Option Nat → List Span
  | [], _, _, _ => []
  | c :: cs, i, d, st =>
    if c = '(' then
      scanAux value cs (i + 1) (d + 1) (if d = 0 then some i else st)
    else if c = ')' then
      match st with
      | some s =>
        if d - 1 = 0 then
          (if markerMatch (pyStrip (pySlice value (s + 1) i)) then []
           else [(s, i + 1, pyStrip (pySlice value (s + 1) i))])
            ++ scanAux value cs (i + 1) (d - 1) none
        else scanAux value cs (i + 1) (d - 1) (some s)
      | none => scanAux value cs (i + 1) (d - 1) none
    else scanAux value cs (i + 1) d st

/-- Unfolding `scanAux` at `(`. -/
theorem scanAux_open (value cs : List Char) (i : Nat) (d : Int) (st : Option Nat) :
    scanAux value ('(' :: cs) i d st
      = scanAux value cs (i + 1) (d + 1) (if d = 0 then some i else st) := by
  rw [scanAux.eq_def]
  simp

/-- Unfolding `scanAux` at `)` with no open span. -/
theorem scanAux_close_none (value cs : List Char) (i : Nat) (d : Int) :
    scanAux value (')' :: cs) i d none = scanAux value cs (i + 1) (d - 1) none := by
  rw [scanAux.eq_def]
  simp

/-- Unfolding `scanAux` at `)` closing the open span (depth returns to 0). -/
theorem scanAux_close_some_done (value cs : List Char) (i s : Nat) (d : Int)
    (hd : d - 1 = 0) :
    scanAux value (')' :: cs) i d (some s)
      = (if markerMatch (pyStrip (pySlice value (s + 1) i)) then []
         else [(s, i + 1, pyStrip (pySlice value (s + 1) i))])
          ++ scanAux value cs (i + 1) (d - 1) none := by
  rw [scanAux.eq_def]
  simp [hd]

/-- Unfolding `scanAux` at `)` inside a span (depth stays positive). -/
theorem scanAux_close_some_keep (value cs : List Char) (i s : Nat) (d : Int)
    (hd : ¬ d - 1 = 0) :
    scanAux value (')' :: cs) i d (some s) = scanAux value cs (i + 1) (d - 1) (some s) := by
  rw [scanAux.eq_def]
  simp [hd]

/-- Unfolding `scanAux` at an ordinary character. -/
theorem scanAux_other (value cs : List Char) (c : Char) (i : Nat) (d : Int) (st : Option Nat)
    (h1 : ¬ c = '(') (h2 : ¬ c = ')') :
    scanAux value (c :: cs) i d st = scanAux value cs (i + 1) d st := by
  rw [scanAux.eq_def]
  simp [h1, h2]

/-- The fold over the enumerated characters accumulates exactly the spans of
`scanAux`. -/
theorem foldl_scan_eq_scanAux (value : List Char) :
    ∀ (cs : List Char) (i : Nat) (d : Int) (st : Option Nat) (sp : List Span),
      ((List.enumFrom i cs).foldl (measureScanStep value) (d, st, sp)).2.2
        = sp ++ scanAux value cs i d st := by
  intro cs
  induction cs with
  | nil => intro i d st sp; simp [scanAux]
  | cons c cs ih =>
    intro i d st sp
    rw [List.enumFrom_cons, List.foldl_cons]
    by_cases hc : c = '('
    · subst hc
      rw [scanAux_open]
      have hstep : measureScanStep value (d, st, sp) (i, '(')
          = (d + 1, if d = 0 then some i else st, sp) := by
        simp [measureScanStep]
      rw [hstep]
      exact ih (i + 1) (d + 1) (if d = 0 then some i else st) sp
    · by_cases hc2 : c = ')'
      · subst hc2
        cases st with
        | none =>
          rw [scanAux_close_none]
          have hstep : measureScanStep value (d, none, sp) (i, ')') = (d - 1, none, sp) := by
            simp [measureScanStep]
          rw [hstep]
          exact ih (i + 1) (d - 1) none sp
        | some s =>
          by_cases hd : d - 1 = 0
          · rw [scanAux_close_some_done value cs i s d hd]
            have hstep : measureScanStep value (d, some s, sp) (i, ')')
                = (d - 1, none,
                    if markerMatch (pyStrip (pySlice value (s + 1) i)) then sp
                    else sp ++ [(s, i + 1, pyStrip (pySlice value (s + 1) i))]) := by
              simp [measureScanStep, hd]
            rw [hstep]
            by_cases hm : markerMatch (pyStrip (pySlice value (s + 1) i)) = true
            · rw [if_pos hm, if_pos hm]
              rw [ih (i + 1) (d - 1) none sp]
              simp
            · rw [if_neg hm, if_neg hm]
              rw [ih (i + 1) (d - 1) none (sp ++ [(s, i + 1, pyStrip (pySlice value (s + 1) i))])]
              simp
          · rw [scanAux_close_some_keep value cs i s d hd]
            have hstep : measureScanStep value (d, some s, sp) (i, ')')
                = (d - 1, some s, sp) := by
              simp [measureScanStep, hd]
            rw [hstep]
            exact ih (i + 1) (d - 1) (some s) sp
      · rw [scanAux_other value cs c i d st hc hc2]
        have hstep : measureScanStep value (d, st, sp) (i, c) = (d, st, sp) := by
          simp [measureScanStep, hc, hc2]
        rw [hstep]
        exact ih (i + 1) d st sp

/-- Phase 1 of the source is `scanAux` from the start state. -/
theorem spansOf_eq_scanAux (value : List Char) :
    spansOf value = scanAux value value 0 0 none := by
  rw [spansOf]
  have := foldl_scan_eq_scanAux value value 0 0 none []
  rw [show value.enum = List.enumFrom 0 value from rfl] at *
  rw [this]
  simp

/-- Inside an open span (depth `d ≥ 1`, start `s`), the scan emits the span
exactly when `grab` finds the closing parenthesis, and then continues at
depth 0; if the span never closes, nothing more is emitted. -/
theorem scanAux_grab (value : List Char) :
    ∀ (cs : List Char) (i : Nat) (d : Int) (s : Nat), 1 ≤ d →
      scanAux value cs i d (some s)
        = match grab d cs with
          | none => []
          | some (raw, rest) =>
            (if markerMatch (pyStrip (pySlice value (s + 1) (i + raw.length))) then []
             else [(s, i + raw.length + 1, pyStrip (pySlice value (s + 1) (i + raw.length)))])
              ++ scanAux value rest (i + raw.length + 1) 0 none := by
  intro cs
  induction cs with
  | nil =>
    intro i d s hd
    rw [show grab d [] = none from by rw [grab]]
    rfl
  | cons c cs ih =>
    intro i d s hd
    by_cases hc : c = ')'
    · subst hc
      by_cases hd1 : d = 1
      · subst hd1
        rw [scanAux_close_some_done value cs i s 1 (by norm_num)]
        rw [show grab 1 (')' :: cs) = some ([], cs) from by rw [grab]; simp]
        simp only [List.length_nil, Nat.add_zero]
        norm_num
      · rw [scanAux_close_some_keep value cs i s d (by omega)]
        rw [ih (i + 1) (d - 1) s (by omega)]
        rw [show grab d (')' :: cs) = (grab (d - 1) cs).map (fun p => (')' :: p.1, p.2)) from by
          rw [grab]; rw [if_pos rfl, if_neg hd1]]
        cases hg : grab (d - 1) cs with
        | none => rfl
        | some p =>
          obtain ⟨raw', rest⟩ := p
          simp only [Option.map_some', List.length_cons]
          rw [show i + 1 + raw'.length = i + (raw'.length + 1) from by omega]
    · by_cases hc2 : c = '('
      · subst hc2
        rw [scanAux_open]
        rw [if_neg (by omega : ¬ d = 0)]
        rw [ih (i + 1) (d + 1) s (by omega)]
        rw [show grab d ('(' :: cs) = (grab (d + 1) cs).map (fun p => ('(' :: p.1, p.2)) from by
          rw [grab]; rw [if_neg (by decide : ¬ ('(' = ')')), if_pos rfl]]
        cases hg : grab (d + 1) cs with
        | none => rfl
        | some p =>
          obtain ⟨raw', rest⟩ := p
          simp only [Option.map_some', List.length_cons]
          rw [show i + 1 + raw'.length = i + (raw'.length + 1) from by omega]
      · rw [scanAux_other value cs c i d (some s) hc2 hc]
        rw [ih (i + 1) d s hd]
        rw [show grab d (c :: cs) = (grab d cs).map (fun p => (c :: p.1, p.2)) from by
          rw [grab]; rw [if_neg hc, if_neg hc2]]
        cases hg : grab d cs with
        | none => rfl
        | some p =>
          obtain ⟨raw', rest⟩ := p
          simp only [Option.map_some', List.length_cons]
          rw [show i + 1 + raw'.length = i + (raw'.length + 1) from by omega]

/-- Spans listed left to right, disjoint, inside the window `[i, j]`. -/
def ChainedIn : Nat → Nat → List Span → Prop
  | _, _, [] => True
  | i, j, (s, e, _) :: r => i ≤ s ∧ s < e ∧ e ≤ j ∧ ChainedIn e j r

/-- The window's left end can be moved left. -/
theorem ChainedIn_mono (i0 i j : Nat) (sp : List Span) (h : ChainedIn i j sp)
    (hle : i0 ≤ i) : ChainedIn i0 j sp := by
  cases sp with
  | nil => trivial
  | cons x r =>
    obtain ⟨s, e, c⟩ := x
    obtain ⟨h1, h2, h3, h4⟩ := h
    exact ⟨by omega, h2, h3, h4⟩

/-- The spans produced by the scan (with no open span pending) are chained
and lie within the scanned window. -/
theorem scan_chained (value : List Char) :
    ∀ (n : Nat) (cs : List Char), cs.length ≤ n → ∀ (i : Nat) (d : Int),
      ChainedIn i (i + cs.length) (scanAux value cs i d none) := by
  intro n
  induction n with
  | zero =>
    intro cs hcs i d
    have : cs = [] := List.length_eq_zero.mp (Nat.le_zero.mp hcs)
    subst this
    trivial
  | succ n ih =>
    intro cs hcs i d
    cases cs with
    | nil => trivial
    | cons c cs1 =>
      simp only [List.length_cons] at hcs
      by_cases hc : c = '('
      · subst hc
        rw [scanAux_open]
        by_cases hd : d = 0
        · rw [if_pos hd]
          rw [scanAux_grab value cs1 (i + 1) (d + 1) i (by omega)]
          cases hg : grab (d + 1) cs1 with
          | none => trivial
          | some p =>
            obtain ⟨raw, rest⟩ := p
            simp only
            have hsplit : cs1 = raw ++ ')' :: rest := grab_split cs1 (d + 1) raw rest hg
            have hlen : cs1.length = raw.length + 1 + rest.length := by
              rw [hsplit]; simp; omega
            have hrest := ih rest (by omega) (i + 1 + raw.length + 1) 0
            simp only [List.length_cons]
            by_cases hm : markerMatch (pyStrip (pySlice value (i + 1) (i + 1 + raw.length))) = true
            · rw [if_pos hm]
              rw [List.nil_append]
              apply ChainedIn_mono i (i + 1 + raw.length + 1) _ _ ?_ (by omega)
              have : i + 1 + raw.length + 1 + rest.length = i + (cs1.length + 1) := by omega
              rw [this] at hrest
              exact hrest
            · rw [if_neg hm]
              rw [List.singleton_append]
              refine ⟨by omega, by omega, by omega, ?_⟩
              have : i + 1 + raw.length + 1 + rest.length = i + (cs1.length + 1) := by omega
              rw [this] at hrest
              exact hrest
        · rw [if_neg hd]
          apply ChainedIn_mono i (i + 1) _ _ ?_ (by omega)
          have := ih cs1 (by omega) (i + 1) (d + 1)
          have harith : i + 1 + cs1.length = i + (cs1.length + 1) := by omega
          rw [harith] at this
          exact this
      · by_cases hc2 : c = ')'
        · subst hc2
          rw [scanAux_close_none]
          apply ChainedIn_mono i (i + 1) _ _ ?_ (by omega)
          have := ih cs1 (by omega) (i + 1) (d - 1)
          have harith : i + 1 + cs1.length = i + (cs1.length + 1) := by omega
          rw [harith] at this
          exact this
        · rw [scanAux_other value cs1 c i d none hc hc2]
          apply ChainedIn_mono i (i + 1) _ _ ?_ (by omega)
          have := ih cs1 (by omega) (i + 1) d
          have harith : i + 1 + cs1.length = i + (cs1.length + 1) := by omega
          rw [harith] at this
          exact this

/-- Cut the chained spans out of the text: keep up to each span's start,
drop through its end, continue after it (`i` is the absolute offset of the
current text). -/
def spanCut : List Span → List Char → Nat → List Char
  | [], cs, _ => cs
  | (s, e, _) :: r, cs, i => cs.take (s - i) ++ spanCut r (cs.drop (e - i)) e

/-- Cutting spans that all lie beyond a prefix leaves the prefix intact. -/
theorem spanCut_append (A B : List Char) (i j : Nat) (sp : List Span)
    (h : ChainedIn (i + A.length) j sp) :
    spanCut sp (A ++ B) i = A ++ spanCut sp B (i + A.length) := by
  cases sp with
  | nil => rfl
  | cons x r =>
    obtain ⟨s, e, c⟩ := x
    obtain ⟨h1, h2, h3, h4⟩ := h
    rw [spanCut, spanCut]
    have ht : (A ++ B).take (s - i) = A ++ B.take (s - (i + A.length)) := by
      rw [List.take_append_eq_append_take,
        List.take_of_length_le (by omega : A.length ≤ s - i)]
      have harith : s - i - A.length = s - (i + A.length) := by omega
      rw [harith]
    have hd : (A ++ B).drop (e - i) = B.drop (e - (i + A.length)) := by
      rw [List.drop_append_eq_append_drop,
        List.drop_eq_nil_of_le (by omega : A.length ≤ e - i)]
      rw [List.nil_append]
      have harith : e - i - A.length = e - (i + A.length) := by omega
      rw [harith]
    rw [ht, hd, List.append_assoc]

/-- Phase 2 of the source (`removeStep` folded over the spans) computes the
span cut and collects the span contents in order. -/
theorem phase2_eq_spanCut :
    ∀ (sp : List Span) (cleaned : List Char) (off : Nat) (defs : List (List Char)) (j : Nat),
      ChainedIn off j sp → j ≤ off + cleaned.length →
      (sp.foldl removeStep (cleaned, off, defs)).1 = spanCut sp cleaned off ∧
      (sp.foldl removeStep (cleaned, off, defs)).2.2 = defs ++ sp.map (fun x => x.2.2) := by
  intro sp
  induction sp with
  | nil => intro cleaned off defs j _ _; simp [spanCut]
  | cons x r ih =>
    obtain ⟨s, e, content⟩ := x
    intro cleaned off defs j hch hb
    obtain ⟨h1, h2, h3, hch'⟩ := hch
    rw [List.foldl_cons]
    have hstep : removeStep (cleaned, off, defs) (s, e, content)
        = (cleaned.take (s - off) ++ cleaned.drop (e - off), off + (e - s), defs ++ [content]) :=
      rfl
    rw [hstep]
    have hlen : (cleaned.take (s - off) ++ cleaned.drop (e - off)).length
        = cleaned.length - (e - s) := by
      rw [List.length_append, List.length_take, List.length_drop]
      omega
    have hch'' : ChainedIn (off + (e - s)) j r :=
      ChainedIn_mono (off + (e - s)) e j r hch' (by omega)
    obtain ⟨ih1, ih2⟩ := ih (cleaned.take (s - off) ++ cleaned.drop (e - off))
      (off + (e - s)) (defs ++ [content]) j hch'' (by rw [hlen]; omega)
    refine ⟨?_, ?_⟩
    · rw [ih1, spanCut]
      have htk : (cleaned.take (s - off)).length = s - off := by
        rw [List.length_take]
        omega
      rw [spanCut_append (cleaned.take (s - off)) (cleaned.drop (e - off))
        (off + (e - s)) j r (by rw [htk]; exact ChainedIn_mono _ e j r hch' (by omega))]
      rw [htk]
      congr 2
      omega
    · rw [ih2]
      simp

/-- Slicing is a take after a drop. -/
theorem pySlice_drop (l : List Char) (a b : Nat) : pySlice l a b = (l.drop a).take (b - a) := by
  rw [pySlice, List.drop_take]

/-- The slice across an open span's content is its raw text. -/
theorem pySlice_span_content (value raw tail1 : List Char) (i : Nat)
    (hv : value.drop (i + 1) = raw ++ tail1) :
    pySlice value (i + 1) (i + 1 + raw.length) = raw := by
  rw [pySlice_drop, hv]
  have harith : i + 1 + raw.length - (i + 1) = raw.length := by omega
  rw [harith, List.take_left]

/-- Dropping one character more advances the suffix by one. -/
theorem drop_succ_of_drop_cons (value : List Char) (i : Nat) (c : Char) (cs : List Char)
    (hv : value.drop i = c :: cs) : value.drop (i + 1) = cs := by
  have h1 : value.drop (i + 1) = (value.drop i).drop 1 := by
    rw [List.drop_drop]
  rw [h1, hv]
  rfl

/-- Dropping past a span's raw content and closing parenthesis. -/
theorem drop_past_span (value raw rest : List Char) (i : Nat)
    (hv : value.drop (i + 1) = raw ++ ')' :: rest) :
    value.drop (i + 1 + raw.length + 1) = rest := by
  have h1 : value.drop (i + 1 + raw.length + 1) = (value.drop (i + 1)).drop (raw.length + 1) := by
    rw [List.drop_drop]
    congr 1
  rw [h1, hv]
  rw [show raw ++ ')' :: rest = (raw ++ [')']) ++ rest from by simp]
  rw [show raw.length + 1 = (raw ++ [')']).length from by simp, List.drop_left]

/-- Dropping a whole span (opening parenthesis included) from the cons. -/
theorem cons_drop_span (c : Char) (cs1 raw rest : List Char) (h : cs1 = raw ++ ')' :: rest) :
    (c :: cs1).drop (raw.length + 2) = rest := by
  rw [h]
  rw [show c :: (raw ++ ')' :: rest) = (c :: raw ++ [')']) ++ rest from by simp]
  rw [show raw.length + 2 = (c :: raw ++ [')']).length from by simp, List.drop_left]

/-- Main correspondence for the measure parser: on the suffix of `value`
starting at offset `i`, with the scan at non-positive depth and no open
span, cutting the scanned spans out of the suffix gives the claim-side
label, and the scanned span contents are the claim-side definitions. -/
theorem scan_claimScan (value : List Char) :
    ∀ (n : Nat) (cs : List Char), cs.length ≤ n → ∀ (i : Nat) (d : Int), d ≤ 0 →
      value.drop i = cs →
      spanCut (scanAux value cs i d none) cs i = (claimScan d cs).1 ∧
      (scanAux value cs i d none).map (fun x => x.2.2) = (claimScan d cs).2 := by
  intro n
  induction n with
  | zero =>
    intro cs hcs i d hd hv
    have : cs = [] := List.length_eq_zero.mp (Nat.le_zero.mp hcs)
    subst this
    rw [claimScan_nil]
    exact ⟨rfl, rfl⟩
  | succ n ih =>
    intro cs hcs i d hd hv
    cases cs with
    | nil =>
      rw [claimScan_nil]
      exact ⟨rfl, rfl⟩
    | cons c cs1 =>
      simp only [List.length_cons] at hcs
      have hv1 : value.drop (i + 1) = cs1 := drop_succ_of_drop_cons value i c cs1 hv
      by_cases hc : c = '('
      · subst hc
        by_cases hdz : d = 0
        · subst hdz
          rw [scanAux_open, if_pos rfl]
          rw [scanAux_grab value cs1 (i + 1) (0 + 1) i (by omega)]
          cases hg : grab (0 + 1) cs1 with
          | none =>
            rw [claimScan_open0_none cs1 (by rw [show (1 : Int) = 0 + 1 from rfl]; exact hg)]
            exact ⟨rfl, rfl⟩
          | some p =>
            obtain ⟨raw, rest⟩ := p
            simp only
            have hsplit : cs1 = raw ++ ')' :: rest := grab_split cs1 (0 + 1) raw rest hg
            have hlen : cs1.length = raw.length + 1 + rest.length := by
              rw [hsplit]; simp; omega
            have hvr : value.drop (i + 1) = raw ++ ')' :: rest := by rw [hv1, hsplit]
            have hcontent : pySlice value (i + 1) (i + 1 + raw.length) = raw :=
              pySlice_span_content value raw (')' :: rest) i hvr
            have hvrest : value.drop (i + 1 + raw.length + 1) = rest :=
              drop_past_span value raw rest i hvr
            obtain ⟨ihCut, ihMap⟩ := ih rest (by omega) (i + 1 + raw.length + 1) 0
              (by omega) hvrest
            have hchain := scan_chained value rest.length rest le_rfl
              (i + 1 + raw.length + 1) 0
            rw [claimScan_open0_some cs1 raw rest
              (by rw [show (1 : Int) = 0 + 1 from rfl]; exact hg)]
            rw [hcontent]
            by_cases hm : markerMatch (pyStrip raw) = true
            · rw [if_pos hm, if_pos hm, List.nil_append]
              constructor
              · have hA : '(' :: cs1 = ('(' :: (raw ++ [')'])) ++ rest := by
                  rw [hsplit]; simp
                have hAlen : i + ('(' :: (raw ++ [')'])).length = i + 1 + raw.length + 1 := by
                  simp; omega
                rw [hA, spanCut_append ('(' :: (raw ++ [')'])) rest i
                  (i + 1 + raw.length + 1 + rest.length) _ (by rw [hAlen]; exact hchain)]
                rw [hAlen, ihCut]
                simp
              · rw [ihMap]
            · rw [if_neg hm, if_neg hm, List.singleton_append]
              constructor
              · rw [spanCut]
                rw [Nat.sub_self, List.take_zero, List.nil_append]
                have hq : i + 1 + raw.length + 1 - i = raw.length + 2 := by omega
                rw [hq, cons_drop_span '(' cs1 raw rest hsplit]
                exact ihCut
              · rw [List.map_cons, ihMap]
        · rw [scanAux_open, if_neg hdz]
          obtain ⟨ihCut, ihMap⟩ := ih cs1 (by omega) (i + 1) (d + 1) (by omega) hv1
          have hchain := scan_chained value cs1.length cs1 le_rfl (i + 1) (d + 1)
          rw [claimScan_open_ne d cs1 hdz]
          constructor
          · have hA : ('(' : Char) :: cs1 = ['('] ++ cs1 := rfl
            rw [hA, spanCut_append ['('] cs1 i (i + 1 + cs1.length) _
              (by simpa using hchain)]
            simp only [List.length_singleton]
            rw [ihCut]
            rfl
          · rw [ihMap]
      · by_cases hc2 : c = ')'
        · subst hc2
          rw [scanAux_close_none]
          obtain ⟨ihCut, ihMap⟩ := ih cs1 (by omega) (i + 1) (d - 1) (by omega) hv1
          have hchain := scan_chained value cs1.length cs1 le_rfl (i + 1) (d - 1)
          rw [claimScan_close d cs1]
          constructor
          · have hA : (')' : Char) :: cs1 = [')'] ++ cs1 := rfl
            rw [hA, spanCut_append [')'] cs1 i (i + 1 + cs1.length) _
              (by simpa using hchain)]
            simp only [List.length_singleton]
            rw [ihCut]
            rfl
          · rw [ihMap]
        · rw [scanAux_other value cs1 c i d none hc hc2]
          obtain ⟨ihCut, ihMap⟩ := ih cs1 (by omega) (i + 1) d hd hv1
          have hchain := scan_chained value cs1.length cs1 le_rfl (i + 1) d
          rw [claimScan_other d c cs1 hc hc2]
          constructor
          · have hA : c :: cs1 = [c] ++ cs1 := rfl
            rw [hA, spanCut_append [c] cs1 i (i + 1 + cs1.length) _
              (by simpa using hchain)]
            simp only [List.length_singleton]
            rw [ihCut]
            rfl
          · rw [ihMap]

/-- The source per-cell measure split equals the claim-side description. -/
theorem split_measure_row_eq_claim (value : List Char) :
    split_measure_row value = claimMeasureSplit value := by
  have hchain := scan_chained value value.length value le_rfl 0 0
  obtain ⟨hM1, hM2⟩ := scan_claimScan value value.length value le_rfl 0 0 (by omega) (by simp)
  obtain ⟨hP1, hP2⟩ := phase2_eq_spanCut (scanAux value value 0 0 none) value 0 []
    (0 + value.length) hchain (by omega)
  rw [split_measure_row, claimMeasureSplit, spansOf_eq_scanAux]
  simp only
  rw [hP1, hP2, hM1, hM2]
  simp

/-- C1: `split_measure_name_column` replaces every measure-label cell by the
(measure name, definition) pair the claim describes — the depth-counter scan
collecting and removing the non-illustrative top-level parentheticals,
joining their trimmed contents with `"; "` (`claimMeasureSplitStr`) — both
per cell and at the frame level, and the spec's examples hold. -/
theorem measure_annotation_matches_spec :
    (∀ s : String, split_measure_row_str s = claimMeasureSplitStr s) ∧
    (∀ (df : DataFrame) (c : String) (res : DataFrame),
        split_measure_name_column df c = .ok res →
        res = ((df.dropCol c).insertCol (df.colIdx c) "Measure name"
            ((df.getCol c).map (fun v => (claimMeasureSplitStr v).1))).insertCol
          (df.colIdx c + 1) "Definition"
          ((df.getCol c).map (fun v => (claimMeasureSplitStr v).2))) ∧
    split_measure_row_str "Response rate (base: all respondents) (excludes non-responders)"
      = ("Response rate", "base: all respondents; excludes non-responders") ∧
    split_measure_row_str "Score (e.g. 1-5)" = ("Score (e.g. 1-5)", "") := by
  have hcell : ∀ s : String, split_measure_row_str s = claimMeasureSplitStr s := by
    intro s
    rw [split_measure_row_str, claimMeasureSplitStr, split_measure_row_eq_claim]
  refine ⟨hcell, ?_, by decide, by decide⟩
  intro df c res h
  rw [split_measure_name_column] at h
  cases hcol : df.getCol? c with
  | none => rw [hcol] at h; exact absurd h (by simp)
  | some vals =>
    rw [hcol] at h
    simp only at h
    injection h with h'
    subst h'
    have hvals : df.getCol c = vals := by rw [DataFrame.getCol, hcol]; rfl
    rw [hvals]
    congr 1
    · congr 1
      rw [List.map_map]
      apply List.map_congr_left
      intro v _
      simp only [Function.comp]
      rw [hcell v]
    · rw [List.map_map]
      apply List.map_congr_left
      intro v _
      simp only [Function.comp]
      rw [hcell v]

/-- Witness for C1 at a concrete one-cell frame. -/
theorem measure_annotation_matches_spec_witness :
    (⟨[("Measure name", ["A"]), ("Definition", ["b"]), ("Value", ["1"])]⟩ : DataFrame) =
      ((DataFrame.dropCol ⟨[("Measure name", ["A (b)"]), ("Value", ["1"])]⟩ "Measure name").insertCol
          (DataFrame.colIdx ⟨[("Measure name", ["A (b)"]), ("Value", ["1"])]⟩ "Measure name")
          "Measure name"
          ((DataFrame.getCol ⟨[("Measure name", ["A (b)"]), ("Value", ["1"])]⟩ "Measure name").map
            (fun v => (claimMeasureSplitStr v).1))).insertCol
        (DataFrame.colIdx ⟨[("Measure name", ["A (b)"]), ("Value", ["1"])]⟩ "Measure name" + 1)
        "Definition"
        ((DataFrame.getCol ⟨[("Measure name", ["A (b)"]), ("Value", ["1"])]⟩ "Measure name").map
          (fun v => (claimMeasureSplitStr v).2)) :=
  measure_annotation_matches_spec.2.1
    ⟨[("Measure name", ["A (b)"]), ("Value", ["1"])]⟩ "Measure name"
    ⟨[("Measure name", ["A"]), ("Definition", ["b"]), ("Value", ["1"])]⟩ (by rfl)
